import Mathlib

/-! Detective Quest (nível mestre): the clue tree, the suspect table and the verdict.

A shallow embedding of `detective_quest_mestre.c`.

* A C string is the list of its bytes before the terminating NUL, each byte given by its
  `unsigned char` value.
* A pointer to a heap node is the node itself; `NULL` is the empty constructor.  Heap
  allocation is taken to succeed, and a string copied by `strcpy` into a fixed buffer is
  taken to fit it.  The exception is the field `char conteudo[100]` of a clue node:
  `criarPistaNodeComLimite`, `inserirPistaComLimite` and `inserirTodasComLimite` model its
  bound and return `none` when the copy writes past the array.
* The hash accumulator of `funcaoHash` and the counter of `exibirPistas` are 32-bit `int`s
  and are wrapped explicitly; the tally of `contarPistasPorSuspeito`, which is at most the
  number of nodes of a tree, is computed in `ℤ`.
* The characters stored by the successive `scanf(" %c", &escolha)` of `explorarSalas` are
  given as a list; the bytes left on the standard input for `fgets` are given separately.
* The table pointer is never `NULL`: `main` stops before any use of the table when
  `criarTabelaHash` fails.
* An access to the bucket array outside `0 .. TAMANHO_HASH-1` has no defined behaviour in C;
  the operations on the table return `none` for it.
* Whether plain `char` is signed is left to the platform by C; the functions that hash a
  string take it as the parameter `charComSinal`.
-/

namespace DetectiveQuest

/-! ## Definitions -/

/-- A C string: its bytes up to (not including) the terminating NUL, as `unsigned char`
values. -/
abbrev CStr := List Nat

/-- The constant `TAMANHO_HASH` of the source. -/
def TAMANHO_HASH : Nat := 20

/-- The library function `strcmp`: the first position where the two strings differ decides,
bytes compared as `unsigned char`, the end of a string being smaller than any byte.  Only the
sign of the result is specified by C, so the result is `-1`, `0` or `1`. -/
def strcmp : CStr → CStr → Int
  | [], [] => 0
  | [], _ :: _ => -1
  | _ :: _, [] => 1
  | a :: s, b :: t => if a < b then -1 else if b < a then 1 else strcmp s t

/-- The `struct PistaNode` behind a `PistaNode*`: `nulo` is `NULL`. -/
inductive PistaNode where
  | nulo : PistaNode
  | no (conteudo : CStr) (esquerda : PistaNode) (direita : PistaNode) : PistaNode
  deriving DecidableEq, Repr

/-- The function `criarPistaNode` for a text that fits the field `char conteudo[100]` (at most
99 bytes and the NUL): a fresh node holding the text, with both children `NULL`.  The bound
of the `strcpy` is modelled by `criarPistaNodeComLimite`. -/
def criarPistaNode (conteudo : CStr) : PistaNode :=
  .no conteudo .nulo .nulo

/-- The function `inserirPista`: descends by `strcmp`, creates the node at the `NULL` it
reaches, and leaves the tree as it is when the text is found.  This is the tree returned when
the text fits `char conteudo[100]`; `inserirPistaComLimite` adds the bound. -/
def inserirPista : PistaNode → CStr → PistaNode
  | .nulo, conteudo => criarPistaNode conteudo
  | .no c e d, conteudo =>
    let comparacao := strcmp conteudo c
    if comparacao < 0 then .no c (inserirPista e conteudo) d
    else if comparacao > 0 then .no c e (inserirPista d conteudo)
    else .no c e d

/-- A value brought into the range of a 32-bit two's complement `int`. -/
def int32 (x : Int) : Int :=
  (x + 2147483648) % 4294967296 - 2147483648

/-- The function `exibirPistas`: in-order walk; each node increments `*contador` (a 32-bit
`int`, wrapped explicitly) and prints the line `"%d. %s"`.  Returns the printed lines (number,
text) and the final counter. -/
def exibirPistas : PistaNode → Int → List (Int × CStr) × Int
  | .nulo, contador => ([], contador)
  | .no c e d, contador =>
    let r1 := exibirPistas e contador
    let contador1 := int32 (r1.2 + 1)
    let r2 := exibirPistas d contador1
    (r1.1 ++ (contador1, c) :: r2.1, r2.2)

/-- The clue texts in the order `exibirPistas` prints them, counter started at 0 as in
`explorarSalas`. -/
def enumerar (raiz : PistaNode) : List CStr :=
  (exibirPistas raiz 0).1.map Prod.snd

/-- The tree after inserting the texts of a list one by one, left to right, starting from
the tree `raiz`. -/
def inserirTodas (raiz : PistaNode) (pistas : List CStr) : PistaNode :=
  pistas.foldl inserirPista raiz

/-- The library function `strcpy` into an array of `tamanho` bytes: the bytes of the string
and the terminating NUL are copied.  `none` when they do not fit and the copy writes past the
end of the array. -/
def strcpy (tamanho : Nat) (origem : CStr) : Option CStr :=
  if origem.length + 1 ≤ tamanho then some origem else none

/-- The function `criarPistaNode` with the bound of the field `char conteudo[100]`: the
`strcpy` into `novoNode->conteudo`, then both children `NULL`.  `none` when the text has 100
bytes or more, so that the copy writes past the array. -/
def criarPistaNodeComLimite (conteudo : CStr) : Option PistaNode :=
  match strcpy 100 conteudo with
  | none => none
  | some copia => some (.no copia .nulo .nulo)

/-- The function `inserirPista` with the bound of `char conteudo[100]`: as `inserirPista`,
the node at the `NULL` it reaches being created by `criarPistaNodeComLimite`.  `none` when
that `strcpy` writes past the array. -/
def inserirPistaComLimite : PistaNode → CStr → Option PistaNode
  | .nulo, conteudo => criarPistaNodeComLimite conteudo
  | .no c e d, conteudo =>
    let comparacao := strcmp conteudo c
    if comparacao < 0 then
      match inserirPistaComLimite e conteudo with
      | none => none
      | some e1 => some (.no c e1 d)
    else if comparacao > 0 then
      match inserirPistaComLimite d conteudo with
      | none => none
      | some d1 => some (.no c e d1)
    else some (.no c e d)

/-- The tree after inserting the texts of a list one by one with `inserirPistaComLimite`,
left to right, starting from the tree `raiz`; `none` when one of the insertions is. -/
def inserirTodasComLimite : PistaNode → List CStr → Option PistaNode
  | raiz, [] => some raiz
  | raiz, p :: resto =>
    match inserirPistaComLimite raiz p with
    | none => none
    | some raiz1 => inserirTodasComLimite raiz1 resto

/-- The order `strcmp` induces: `a` comes strictly before `b`. -/
def antes (a b : CStr) : Prop := strcmp a b < 0

instance (a b : CStr) : Decidable (antes a b) := by
  unfold antes; infer_instance

/-- The texts of a tree, left subtree first, then the node, then the right subtree. -/
def textos : PistaNode → List CStr
  | .nulo => []
  | .no c e d => textos e ++ c :: textos d

/-- The search-tree invariant: at every node the left subtree holds only strictly smaller
texts and the right subtree only strictly larger ones. -/
def ordenada : PistaNode → Prop
  | .nulo => True
  | .no c e d =>
    (∀ x ∈ textos e, antes x c) ∧ (∀ x ∈ textos d, antes c x) ∧ ordenada e ∧ ordenada d

/-- The conversion `(int)pista[i]` of a plain `char` holding the byte `b`.  Whether plain
`char` is signed is fixed by the platform (`charComSinal`): a signed `char` maps the bytes
`128 .. 255` to `-128 .. -1`. -/
def charParaInt (charComSinal : Bool) (b : Nat) : Int :=
  if charComSinal ∧ 128 ≤ b then (b : Int) - 256 else (b : Int)

/-- The `for` loop of `funcaoHash`: `hash += (int)pista[i]` for every byte up to the NUL. -/
def funcaoHashLaco (charComSinal : Bool) : CStr → Int → Int
  | [], hash => hash
  | b :: resto, hash => funcaoHashLaco charComSinal resto (int32 (hash + charParaInt charComSinal b))

/-- The function `funcaoHash`: the accumulated sum, then C's `%` (which truncates towards
zero, so a negative sum gives a result that is negative or zero). -/
def funcaoHash (charComSinal : Bool) (pista : CStr) : Int :=
  Int.tmod (funcaoHashLaco charComSinal pista 0) TAMANHO_HASH

/-- The data of a `struct HashNode`; the `proximo` pointer is the rest of the chain. -/
structure HashNode where
  pista : CStr
  suspeito : CStr
  deriving DecidableEq, Repr

/-- The `struct TabelaHash`: the array `tabela` of chain heads, a chain being the list of its
nodes from the head on (`NULL` is the empty list). -/
structure TabelaHash where
  tabela : List (List HashNode)
  deriving DecidableEq, Repr

/-- The function `criarTabelaHash`: `TAMANHO_HASH` slots, all `NULL`. -/
def criarTabelaHash : TabelaHash :=
  ⟨List.replicate TAMANHO_HASH []⟩

/-- The read `tabela->tabela[indice]`: defined only for `0 ≤ indice < TAMANHO_HASH`. -/
def lerBalde (tabela : TabelaHash) (indice : Int) : Option (List HashNode) :=
  if 0 ≤ indice ∧ indice < TAMANHO_HASH then tabela.tabela[indice.toNat]? else none

/-- The function `inserirNaHash`: the new node becomes the head of the chain at
`funcaoHash pista`.  The result is the table afterwards, `none` when the slot is outside the
array. -/
def inserirNaHash (charComSinal : Bool) (tabela : TabelaHash) (pista suspeito : CStr) :
    Option TabelaHash :=
  let indice := funcaoHash charComSinal pista
  match lerBalde tabela indice with
  | none => none
  | some cabeca =>
    let novoNode : HashNode := ⟨pista, suspeito⟩
    some ⟨tabela.tabela.set indice.toNat (novoNode :: cabeca)⟩

/-- The `while` loop of `encontrarSuspeito`: the suspect of the first node of the chain whose
key compares equal, `none` (`NULL`) at the end of the chain. -/
def percorrerLista : List HashNode → CStr → Option CStr
  | [], _ => none
  | atual :: proximo, pista =>
    if strcmp atual.pista pista = 0 then some atual.suspeito else percorrerLista proximo pista

/-- The function `encontrarSuspeito`.  The outer `Option` is `none` when the slot read is
outside the array; inside, `none` is the `NULL` returned for a key that is not found. -/
def encontrarSuspeito (charComSinal : Bool) (tabela : TabelaHash) (pista : CStr) :
    Option (Option CStr) :=
  let indice := funcaoHash charComSinal pista
  match lerBalde tabela indice with
  | none => none
  | some atual => some (percorrerLista atual pista)

/-- The table after inserting the associations of a list one by one, left to right; `none`
as soon as one insertion is outside the array. -/
def inserirVarias (charComSinal : Bool) :
    TabelaHash → List (CStr × CStr) → Option TabelaHash
  | tabela, [] => some tabela
  | tabela, (pista, suspeito) :: resto =>
    match inserirNaHash charComSinal tabela pista suspeito with
    | none => none
    | some tabela1 => inserirVarias charComSinal tabela1 resto

/-- The test `suspeitoAssociado != NULL && strcmp(suspeitoAssociado, suspeito) == 0`. -/
def apontaPara (suspeitoAssociado : Option CStr) (suspeito : CStr) : Bool :=
  match suspeitoAssociado with
  | none => false
  | some s => decide (strcmp s suspeito = 0)

/-- The function `contarPistasPorSuspeito`: the node first, then both subtrees.  `none` when
a lookup reads outside the bucket array. -/
def contarPistasPorSuspeito (charComSinal : Bool) :
    PistaNode → TabelaHash → CStr → Option Int
  | .nulo, _, _ => some 0
  | .no c e d, tabela, suspeito =>
    match encontrarSuspeito charComSinal tabela c with
    | none => none
    | some suspeitoAssociado =>
      let count : Int := if apontaPara suspeitoAssociado suspeito then 1 else 0
      match contarPistasPorSuspeito charComSinal e tabela suspeito with
      | none => none
      | some ce =>
        match contarPistasPorSuspeito charComSinal d tabela suspeito with
        | none => none
        | some cd => some (count + ce + cd)

/-- The function `listarPistasPorSuspeito`: in-order walk printing `"   - %s"` for the
matching texts.  Returns the texts printed, `none` when a lookup reads outside the array. -/
def listarPistasPorSuspeito (charComSinal : Bool) :
    PistaNode → TabelaHash → CStr → Option (List CStr)
  | .nulo, _, _ => some []
  | .no c e d, tabela, suspeito =>
    match listarPistasPorSuspeito charComSinal e tabela suspeito with
    | none => none
    | some le =>
      match encontrarSuspeito charComSinal tabela c with
      | none => none
      | some suspeitoAssociado =>
        let linha : List CStr := if apontaPara suspeitoAssociado suspeito then [c] else []
        match listarPistasPorSuspeito charComSinal d tabela suspeito with
        | none => none
        | some ld => some (le ++ linha ++ ld)

/-- Specification side of the table: the suspect recorded by the last pair of the list whose
key is `c`, `none` when no pair has that key. -/
def ultimaAssociacao : List (CStr × CStr) → CStr → Option CStr
  | [], _ => none
  | (k, s) :: resto, c =>
    match ultimaAssociacao resto c with
    | some s1 => some s1
    | none => if k = c then some s else none

/-- Specification side of the tally: the lookups of the texts of a list, one after the other,
every text paired with what `encontrarSuspeito` returns for it; `none` when one of the lookups
reads outside the array. -/
def consultarTodas (charComSinal : Bool) (tabela : TabelaHash) :
    List CStr → Option (List (CStr × Option CStr))
  | [] => some []
  | c :: resto =>
    match encontrarSuspeito charComSinal tabela c with
    | none => none
    | some r =>
      match consultarTodas charComSinal tabela resto with
      | none => none
      | some rs => some ((c, r) :: rs)

/-- One `printf` of `verificarSuspeitoFinal`, named after the text it writes; the arguments
are the values substituted for `%s` and `%d`. -/
inductive Saida where
  | faseDeAcusacaoFinal
  | voceDeveFazerSuaAcusacao
  | suspeitosDisponiveis
  | quemVoceAcusa
  | analiseDasEvidencias
  | suspeitoAcusado (nome : CStr)
  | pistasQueApontamPara (nome : CStr) (quantas : Int)
  | pistasEncontradas
  | pistaListada (pista : CStr)
  | tituloVeredicto
  | parabens
  | voceResolveuOCaso
  | evidenciasSuficientes (quantas : Int)
  | presoEConfessou (nome : CStr)
  | mansaoDescansaEmPaz
  | casoNaoResolvido
  | evidenciasInsuficientes
  | precisaDeDuasPistas
  | apenasUmaPista
  | nenhumaPistaApontaPara (nome : CStr)
  | casoPermaneceEmAberto
  deriving DecidableEq, Repr

/-- The accused name as `verificarSuspeitoFinal` reads it from the bytes waiting on the
standard input (taken to hold a line): `fgets` stores at most 49 bytes of it, and the string
is cut at the first line feed (`strcspn`) or NUL. -/
def lerAcusado (entrada : List Nat) : CStr :=
  (entrada.take 49).takeWhile (fun b => decide (b ≠ 10) && decide (b ≠ 0))

/-- The verdict block of `verificarSuspeitoFinal`: what is printed from `=== VEREDICTO ===`
on, for a count `pistasEncontradas` and the accused name. -/
def blocoVeredicto (pistasEncontradas : Int) (suspeitoAcusado : CStr) : List Saida :=
  .tituloVeredicto ::
    if pistasEncontradas ≥ 2 then
      [.parabens, .voceResolveuOCaso, .evidenciasSuficientes pistasEncontradas,
        .presoEConfessou suspeitoAcusado, .mansaoDescansaEmPaz]
    else
      [.casoNaoResolvido, .evidenciasInsuficientes, .precisaDeDuasPistas] ++
        (if pistasEncontradas = 1 then [.apenasUmaPista]
          else [.nenhumaPistaApontaPara suspeitoAcusado]) ++
        [.casoPermaneceEmAberto]

/-- The function `verificarSuspeitoFinal` on the bytes waiting on the standard input: the
lines it prints, `none` when a lookup reads outside the bucket array. -/
def verificarSuspeitoFinal (charComSinal : Bool) (arvorePistas : PistaNode)
    (tabela : TabelaHash) (entrada : List Nat) : Option (List Saida) :=
  let suspeitoAcusado := lerAcusado entrada
  match contarPistasPorSuspeito charComSinal arvorePistas tabela suspeitoAcusado with
  | none => none
  | some pistasEncontradas =>
    let analise : List Saida :=
      [.faseDeAcusacaoFinal, .voceDeveFazerSuaAcusacao, .suspeitosDisponiveis, .quemVoceAcusa,
        .analiseDasEvidencias, .suspeitoAcusado suspeitoAcusado,
        .pistasQueApontamPara suspeitoAcusado pistasEncontradas]
    let listagem : Option (List Saida) :=
      if pistasEncontradas > 0 then
        match listarPistasPorSuspeito charComSinal arvorePistas tabela suspeitoAcusado with
        | none => none
        | some pistas => some (.pistasEncontradas :: pistas.map .pistaListada)
      else some []
    match listagem with
    | none => none
    | some linhas => some (analise ++ linhas ++ blocoVeredicto pistasEncontradas suspeitoAcusado)

/-- The bytes of a string literal whose characters are all ASCII. -/
def ascii (s : String) : CStr :=
  s.toList.map Char.toNat

/-- One `printf` of `main`, `explorarSalas` or `exibirPistas`, named after the text it writes;
the arguments are the values substituted for `%s` and `%d`.  `julgamento` carries a line
written by `verificarSuspeitoFinal`. -/
inductive Linha where
  | bemVindo
  | exploreAMansao
  | useEDS
  | pistasSeraoAssociadas
  | deveraFazerUmaAcusacao
  | tituloNivelMestre
  | voceEstaNa (nome : CStr)
  | pistaEncontrada
  | textoDaPista (pista : CStr)
  | pistaApontaPara (suspeito : CStr)
  | pistaNaoAssociada
  | pistaAdicionada
  | salaSemPistas
  | fimDesteCaminho
  | salaSemSaidas
  | pressioneSParaSair
  | opcoesDeNavegacao
  | opcaoEsquerda (nome : CStr)
  | opcaoDireita (nome : CStr)
  | opcaoEncerrar
  | escolhaSuaAcao
  | movendoParaEsquerda
  | semCaminhoEsquerda
  | movendoParaDireita
  | semCaminhoDireita
  | relatorioFinal
  | investigacaoEncerrada
  | pistasColetadas
  | linhaSeparadora
  | pistaNumerada (numero : Int) (pista : CStr)
  | totalDePistas (total : Int)
  | nenhumaPistaColetada
  | impossivelAcusar
  | obrigadoPorJogar
  | opcaoInvalida
  | julgamento (linha : Saida)
  deriving DecidableEq, Repr

/-- The `struct Sala` behind a `Sala*`: `nulo` is `NULL`.  The rooms form a tree, each room
owning its two exits. -/
inductive Sala where
  | nulo : Sala
  | no (nome : CStr) (pista : CStr) (esquerda : Sala) (direita : Sala) : Sala
  deriving DecidableEq, Repr

/-- The field `nome` of a room. -/
def Sala.nome : Sala → CStr
  | .nulo => []
  | .no nome _ _ _ => nome

/-- The field `pista` of a room. -/
def Sala.pista : Sala → CStr
  | .nulo => []
  | .no _ pista _ _ => pista

/-- The field `esquerda` of a room. -/
def Sala.esquerda : Sala → Sala
  | .nulo => .nulo
  | .no _ _ esquerda _ => esquerda

/-- The field `direita` of a room. -/
def Sala.direita : Sala → Sala
  | .nulo => .nulo
  | .no _ _ _ direita => direita

/-- The function `criarSala`: a room with both exits `NULL`. -/
def criarSala (nome pista : CStr) : Sala :=
  .no nome pista .nulo .nulo

/-- The assignments `sala->esquerda = esquerda; sala->direita = direita` of `main`. -/
def comSaidas (sala esquerda direita : Sala) : Sala :=
  match sala with
  | .nulo => .nulo
  | .no nome pista _ _ => .no nome pista esquerda direita

/-- The lines the loop body of `explorarSalas` prints from the title down to the prompt.
`consulta` is `none` for a room without a clue and otherwise holds what `encontrarSuspeito`
returned for the clue of the room. -/
def linhasDaSala (salaAtual : Sala) (consulta : Option (Option CStr)) : List Linha :=
  [.tituloNivelMestre, .voceEstaNa salaAtual.nome] ++
    (match consulta with
      | some (some suspeito) =>
        [.pistaEncontrada, .textoDaPista salaAtual.pista, .pistaApontaPara suspeito,
          .pistaAdicionada]
      | some none =>
        [.pistaEncontrada, .textoDaPista salaAtual.pista, .pistaNaoAssociada, .pistaAdicionada]
      | none => [.salaSemPistas]) ++
    (if salaAtual.esquerda = .nulo ∧ salaAtual.direita = .nulo then
        [.fimDesteCaminho, .salaSemSaidas, .pressioneSParaSair]
      else []) ++
    [.opcoesDeNavegacao] ++
    (if salaAtual.esquerda ≠ .nulo then [.opcaoEsquerda salaAtual.esquerda.nome] else []) ++
    (if salaAtual.direita ≠ .nulo then [.opcaoDireita salaAtual.direita.nome] else []) ++
    [.opcaoEncerrar, .escolhaSuaAcao]

/-- The part of the loop body of `explorarSalas` before the prompt is answered: the room is
announced, a non-empty clue is inserted into the clue tree and looked up in the table, the
dead end and the options are printed.  Returns the clue tree afterwards and the lines printed;
`none` when the lookup reads outside the bucket array. -/
def entrarNaSala (charComSinal : Bool) (salaAtual : Sala) (arvorePistas : PistaNode)
    (tabela : TabelaHash) : Option (PistaNode × List Linha) :=
  if salaAtual.pista.length > 0 then
    match encontrarSuspeito charComSinal tabela salaAtual.pista with
    | none => none
    | some suspeito =>
      some (inserirPista arvorePistas salaAtual.pista, linhasDaSala salaAtual (some suspeito))
  else some (arvorePistas, linhasDaSala salaAtual none)

/-- The `switch (escolha)` of `explorarSalas` for every choice but `s` and `S`: the room the
loop goes on in and the notice printed.  `none` for `s` and `S`, which end the loop. -/
def tratarEscolha (salaAtual : Sala) (escolha : Nat) : Option (Sala × Linha) :=
  if escolha = 'e'.toNat ∨ escolha = 'E'.toNat then
    if salaAtual.esquerda ≠ .nulo then some (salaAtual.esquerda, .movendoParaEsquerda)
    else some (salaAtual, .semCaminhoEsquerda)
  else if escolha = 'd'.toNat ∨ escolha = 'D'.toNat then
    if salaAtual.direita ≠ .nulo then some (salaAtual.direita, .movendoParaDireita)
    else some (salaAtual, .semCaminhoDireita)
  else if escolha = 's'.toNat ∨ escolha = 'S'.toNat then none
  else some (salaAtual, .opcaoInvalida)

/-- The cases `s` and `S` of the `switch` of `explorarSalas`: the final report, with the
numbered listing and `verificarSuspeitoFinal` when the clue tree is not `NULL`.  Returns the
lines printed; `none` when a lookup of `verificarSuspeitoFinal` reads outside the array. -/
def encerrarInvestigacao (charComSinal : Bool) (arvorePistas : PistaNode)
    (tabela : TabelaHash) (entrada : List Nat) : Option (List Linha) :=
  if arvorePistas ≠ .nulo then
    let listagem := exibirPistas arvorePistas 0
    match verificarSuspeitoFinal charComSinal arvorePistas tabela entrada with
    | none => none
    | some acusacao =>
      some ([.relatorioFinal, .investigacaoEncerrada, .pistasColetadas, .linhaSeparadora] ++
        listagem.1.map (fun p => Linha.pistaNumerada p.1 p.2) ++
        [.linhaSeparadora, .totalDePistas listagem.2] ++
        acusacao.map Linha.julgamento ++ [.obrigadoPorJogar])
  else
    some [.relatorioFinal, .investigacaoEncerrada, .nenhumaPistaColetada, .impossivelAcusar,
      .obrigadoPorJogar]

/-- Where `explorarSalas` stands when the choices given are used up: waiting at the prompt
for the next choice, returned after `s` or `S`, or returned because the room pointer it was
called with is `NULL`. -/
inductive Situacao where
  | aguardandoEscolha
  | encerrada
  | semSala
  deriving DecidableEq, Repr

/-- The state of `explorarSalas` and what it printed. -/
structure Exploracao where
  salaAtual : Sala
  arvorePistas : PistaNode
  saida : List Linha
  situacao : Situacao
  deriving DecidableEq, Repr

/-- The function `explorarSalas`: every pass of the `while` loop enters the current room, reads
a choice and runs the `switch`.  `escolhas` are the characters the successive
`scanf(" %c", &escolha)` store (each followed by the `getchar()` that drops the next byte),
`entrada` the bytes then left on the standard input for `verificarSuspeitoFinal`.  When the
choices are used up the loop is waiting at its prompt (the standard input is taken not to
end while the loop runs).  The counter `pistasColetadas` is only incremented and never read,
and is left out.  `none` when a lookup reads outside the bucket array. -/
def explorarSalas (charComSinal : Bool) :
    Sala → PistaNode → TabelaHash → List Nat → List Nat → Option Exploracao
  | .nulo, arvorePistas, _, _, _ => some ⟨.nulo, arvorePistas, [], .semSala⟩
  | .no nome pista esquerda direita, arvorePistas, tabela, escolhas, entrada =>
    match entrarNaSala charComSinal (.no nome pista esquerda direita) arvorePistas tabela with
    | none => none
    | some (arvore1, linhas) =>
      match escolhas with
      | [] => some ⟨.no nome pista esquerda direita, arvore1, linhas, .aguardandoEscolha⟩
      | escolha :: resto =>
        match tratarEscolha (.no nome pista esquerda direita) escolha with
        | some (proxima, aviso) =>
          match explorarSalas charComSinal proxima arvore1 tabela resto entrada with
          | none => none
          | some r => some ⟨r.salaAtual, r.arvorePistas, linhas ++ aviso :: r.saida, r.situacao⟩
        | none =>
          match encerrarInvestigacao charComSinal arvore1 tabela entrada with
          | none => none
          | some relatorio =>
            some ⟨.no nome pista esquerda direita, arvore1, linhas ++ relatorio, .encerrada⟩

/-- The function `inicializarSuspeitos`: the ten insertions, in the order of the source. -/
def inicializarSuspeitos (charComSinal : Bool) (tabela : TabelaHash) : Option TabelaHash :=
  inserirVarias charComSinal tabela
    [(ascii "Livro sobre venenos deixado aberto na mesa", ascii "Dr. Smith"),
     (ascii "Frasco vazio de ars" ++ [195, 170] ++ ascii "nico", ascii "Dr. Smith"),
     (ascii "Flores venenosas recentemente colhidas", ascii "Dr. Smith"),
     (ascii "Carta de ameaca parcialmente queimada", ascii "Sra. Johnson"),
     (ascii "Documento com assinatura falsificada", ascii "Sra. Johnson"),
     (ascii "Uma pegada estranha na entrada principal", ascii "Sr. Williams"),
     (ascii "Cinzas ainda quentes na lareira", ascii "Sr. Williams"),
     (ascii "Partitura com codigo secreto", ascii "Sr. Williams"),
     (ascii "Faca com manchas suspeitas", ascii "Mordomo James"),
     (ascii "Luvas com residuos toxicos", ascii "Mordomo James")]

/-- The room `cofre` of `main`. -/
def cofre : Sala :=
  criarSala (ascii "Cofre Secreto") (ascii "Documento com assinatura falsificada")

/-- The room `piano` of `main`. -/
def piano : Sala :=
  criarSala (ascii "Piano Antigo") (ascii "Partitura com codigo secreto")

/-- The room `despensa` of `main`; the letter `ê` of its clue is the two bytes 0xC3 0xAA of
the UTF-8 source file. -/
def despensa : Sala :=
  criarSala (ascii "Despensa") (ascii "Frasco vazio de ars" ++ [195, 170] ++ ascii "nico")

/-- The room `greenhouse` of `main`. -/
def greenhouse : Sala :=
  criarSala (ascii "Estufa") (ascii "Luvas com residuos toxicos")

/-- The room `escritorio` of `main`, with its exit to the left. -/
def escritorio : Sala :=
  comSaidas (criarSala (ascii "Escritorio") (ascii "Carta de ameaca parcialmente queimada"))
    cofre .nulo

/-- The room `salaMusica` of `main`, without a clue, with its exit to the right. -/
def salaMusica : Sala :=
  comSaidas (criarSala (ascii "Sala de Musica") []) .nulo piano

/-- The room `cozinha` of `main`, with its exit to the left. -/
def cozinha : Sala :=
  comSaidas (criarSala (ascii "Cozinha") (ascii "Faca com manchas suspeitas")) despensa .nulo

/-- The room `jardim` of `main`, with its exit to the right. -/
def jardim : Sala :=
  comSaidas (criarSala (ascii "Jardim") (ascii "Flores venenosas recentemente colhidas"))
    .nulo greenhouse

/-- The room `biblioteca` of `main`. -/
def biblioteca : Sala :=
  comSaidas (criarSala (ascii "Biblioteca") (ascii "Livro sobre venenos deixado aberto na mesa"))
    escritorio salaMusica

/-- The room `salaEstar` of `main`. -/
def salaEstar : Sala :=
  comSaidas (criarSala (ascii "Sala de Estar") (ascii "Cinzas ainda quentes na lareira"))
    cozinha jardim

/-- The room `hallEntrada` of `main`, the root of the mansion. -/
def hallEntrada : Sala :=
  comSaidas (criarSala (ascii "Hall de Entrada")
    (ascii "Uma pegada estranha na entrada principal")) biblioteca salaEstar

/-- The function `main`: the welcome lines, the suspect table, the mansion, and
`explorarSalas` from `hallEntrada` with an empty clue tree. -/
def main (charComSinal : Bool) (escolhas entrada : List Nat) : Option Exploracao :=
  match inicializarSuspeitos charComSinal criarTabelaHash with
  | none => none
  | some tabelaSuspeitos =>
    match explorarSalas charComSinal hallEntrada .nulo tabelaSuspeitos escolhas entrada with
    | none => none
    | some r =>
      some ⟨r.salaAtual, r.arvorePistas,
        [.bemVindo, .exploreAMansao, .useEDS, .pistasSeraoAssociadas,
          .deveraFazerUmaAcusacao] ++ r.saida, r.situacao⟩

/-- Whether a choice is `s` or `S`, the choices that end the session. -/
def encerra (escolha : Nat) : Bool :=
  decide (escolha = 's'.toNat ∨ escolha = 'S'.toNat)

/-- The rooms the loop of `explorarSalas` enters for a list of choices, one for every pass of
the loop: the room it is called with, then after every choice but `s` and `S` the room the
`switch` goes on in. -/
def salasEntradas : Sala → List Nat → List Sala
  | .nulo, _ => []
  | .no nome pista esquerda direita, [] => [.no nome pista esquerda direita]
  | .no nome pista esquerda direita, escolha :: resto =>
    .no nome pista esquerda direita ::
      match tratarEscolha (.no nome pista esquerda direita) escolha with
      | some (proxima, _) => salasEntradas proxima resto
      | none => []

/-- The room the loop of `explorarSalas` is in once the choices are used up or `s` or `S` is
met. -/
def salaApos : Sala → List Nat → Sala
  | sala, [] => sala
  | sala, escolha :: resto =>
    match tratarEscolha sala escolha with
    | some (proxima, _) => salaApos proxima resto
    | none => sala

/-- The non-empty clue texts of a list of rooms, in the order of the rooms. -/
def pistasDasSalas (salas : List Sala) : List CStr :=
  (salas.map Sala.pista).filter (fun p => decide (p.length > 0))

/-- The rooms of a mansion: the room itself and the rooms below it. -/
def salasDaMansao : Sala → List Sala
  | .nulo => []
  | .no nome pista esquerda direita =>
    .no nome pista esquerda direita :: (salasDaMansao esquerda ++ salasDaMansao direita)

/-- The room, the clue tree and the situation of an exploration, without what it printed. -/
def Exploracao.estado (r : Exploracao) : Sala × PistaNode × Situacao :=
  (r.salaAtual, r.arvorePistas, r.situacao)

/-- The name announced by a line `Voce esta na: %s`. -/
def salaAnunciada : Linha → Option CStr
  | .voceEstaNa nome => some nome
  | _ => none

/-- The number of nodes of a clue tree. -/
def tamanho : PistaNode → Nat
  | .nulo => 0
  | .no _ e d => tamanho e + 1 + tamanho d

/-- The ten pairs of a clue and a suspect that the calls of `inserirNaHash` in
`inicializarSuspeitos` pass, in the order of the source. -/
def associacoes : List (CStr × CStr) :=
  [(ascii "Livro sobre venenos deixado aberto na mesa", ascii "Dr. Smith"),
   (ascii "Frasco vazio de ars" ++ [195, 170] ++ ascii "nico", ascii "Dr. Smith"),
   (ascii "Flores venenosas recentemente colhidas", ascii "Dr. Smith"),
   (ascii "Carta de ameaca parcialmente queimada", ascii "Sra. Johnson"),
   (ascii "Documento com assinatura falsificada", ascii "Sra. Johnson"),
   (ascii "Uma pegada estranha na entrada principal", ascii "Sr. Williams"),
   (ascii "Cinzas ainda quentes na lareira", ascii "Sr. Williams"),
   (ascii "Partitura com codigo secreto", ascii "Sr. Williams"),
   (ascii "Faca com manchas suspeitas", ascii "Mordomo James"),
   (ascii "Luvas com residuos toxicos", ascii "Mordomo James")]

/-- The table `main` works with: `inicializarSuspeitos` on the table of `criarTabelaHash`
(the empty table when an insertion reads outside the array). -/
def tabelaSuspeitos (charComSinal : Bool) : TabelaHash :=
  (inicializarSuspeitos charComSinal criarTabelaHash).getD criarTabelaHash

/-- The ways down from a room: every list of rooms met, after the room itself, by taking an
exit that is not `NULL` zero or more times. -/
def descidas : Sala → List (List Sala)
  | .nulo => []
  | .no _ _ esquerda direita =>
    [] :: ((descidas esquerda).map (fun c => esquerda :: c) ++
      (descidas direita).map (fun c => direita :: c))

/-- The room a way down from `sala` ends in. -/
def fimDoCaminho : Sala → List Sala → Sala
  | sala, [] => sala
  | _, proxima :: resto => fimDoCaminho proxima resto

/-- The line of `verificarSuspeitoFinal` a printed line carries. -/
def linhaDoJulgamento : Linha → Option Saida
  | .julgamento linha => some linha
  | _ => none

/-- A small table for the examples: `a` and `c` point to `S`, `b` points to `T`. -/
def tabelaExemplo : TabelaHash :=
  (inserirVarias false criarTabelaHash [([97], [83]), ([98], [84]), ([99], [83])]).getD
    criarTabelaHash

/-! ## Theorems -/

/-! ### The order of `strcmp` -/

theorem strcmp_self (a : CStr) : strcmp a a = 0 := by
  induction a with
  | nil => rfl
  | cons x s ih => simp [strcmp, ih]

theorem strcmp_eq_zero {a b : CStr} : strcmp a b = 0 ↔ a = b := by
  constructor
  · intro h
    induction a generalizing b with
    | nil => cases b with
      | nil => rfl
      | cons y t => simp [strcmp] at h
    | cons x s ih => cases b with
      | nil => simp [strcmp] at h
      | cons y t =>
        simp only [strcmp] at h
        split_ifs at h with h1 h2
        · exact absurd h (by decide)
        · have hxy : x = y := by omega
          rw [hxy, ih h]
  · rintro rfl
    exact strcmp_self a

theorem strcmp_pos_iff {a b : CStr} : 0 < strcmp a b ↔ strcmp b a < 0 := by
  induction a generalizing b with
  | nil => cases b <;> simp [strcmp]
  | cons x s ih => cases b with
    | nil => simp [strcmp]
    | cons y t =>
      simp only [strcmp]
      split_ifs <;> first | omega | simp | exact ih

theorem antes_irrefl (a : CStr) : ¬ antes a a := by
  simp [antes, strcmp_self]

theorem antes_trans {a b c : CStr} (hab : antes a b) (hbc : antes b c) : antes a c := by
  unfold antes at *
  induction a generalizing b c with
  | nil => cases b with
    | nil => simp [strcmp] at hab
    | cons y t => cases c with
      | nil => simp [strcmp] at hbc
      | cons z u => simp [strcmp]
  | cons x s ih => cases b with
    | nil => simp [strcmp] at hab
    | cons y t => cases c with
      | nil => simp [strcmp] at hbc
      | cons z u =>
        simp only [strcmp] at hab hbc ⊢
        split_ifs at hab hbc ⊢ <;> first | omega | exact ih hab hbc

theorem antes_asymm {a b : CStr} (hab : antes a b) : ¬ antes b a :=
  fun hba => antes_irrefl a (antes_trans hab hba)

/-! ### The clue tree -/

theorem exibirPistas_textos (t : PistaNode) (k : Int) :
    (exibirPistas t k).1.map Prod.snd = textos t := by
  induction t generalizing k with
  | nulo => rfl
  | no c e d ihe ihd => simp [exibirPistas, textos, ihe, ihd]

theorem enumerar_eq_textos (t : PistaNode) : enumerar t = textos t :=
  exibirPistas_textos t 0

theorem mem_textos_inserirPista (t : PistaNode) (x y : CStr) :
    y ∈ textos (inserirPista t x) ↔ y = x ∨ y ∈ textos t := by
  induction t with
  | nulo => simp [inserirPista, criarPistaNode, textos]
  | no c e d ihe ihd =>
    simp only [inserirPista]
    split_ifs with h1 h2
    · simp only [textos, List.mem_append, List.mem_cons, ihe]; tauto
    · simp only [textos, List.mem_append, List.mem_cons, ihd]; tauto
    · have hxc : x = c := strcmp_eq_zero.mp (by omega)
      subst hxc
      simp only [textos, List.mem_append, List.mem_cons]; tauto

theorem ordenada_inserirPista (t : PistaNode) (x : CStr) (h : ordenada t) :
    ordenada (inserirPista t x) := by
  induction t with
  | nulo => simp [inserirPista, criarPistaNode, ordenada, textos]
  | no c e d ihe ihd =>
    obtain ⟨hl, hr, he, hd⟩ := h
    simp only [inserirPista]
    split_ifs with h1 h2
    · refine ⟨?_, hr, ihe he, hd⟩
      intro y hy
      rcases (mem_textos_inserirPista e x y).mp hy with rfl | hy
      · exact h1
      · exact hl y hy
    · refine ⟨hl, ?_, he, ihd hd⟩
      intro y hy
      rcases (mem_textos_inserirPista d x y).mp hy with rfl | hy
      · exact strcmp_pos_iff.mp h2
      · exact hr y hy
    · exact ⟨hl, hr, he, hd⟩

theorem ordenada_inserirTodas (t : PistaNode) (pistas : List CStr) (h : ordenada t) :
    ordenada (inserirTodas t pistas) := by
  induction pistas generalizing t with
  | nil => exact h
  | cons x xs ih => exact ih _ (ordenada_inserirPista t x h)

theorem mem_textos_inserirTodas (t : PistaNode) (pistas : List CStr) (y : CStr) :
    y ∈ textos (inserirTodas t pistas) ↔ y ∈ pistas ∨ y ∈ textos t := by
  induction pistas generalizing t with
  | nil => simp [inserirTodas]
  | cons x xs ih =>
    have := ih (inserirPista t x)
    simp only [inserirTodas, List.foldl_cons] at this ⊢
    rw [this, mem_textos_inserirPista, List.mem_cons]; tauto

theorem textos_pairwise (t : PistaNode) (h : ordenada t) : (textos t).Pairwise antes := by
  induction t with
  | nulo => simp [textos]
  | no c e d ihe ihd =>
    obtain ⟨hl, hr, he, hd⟩ := h
    simp only [textos]
    rw [List.pairwise_append]
    refine ⟨ihe he, List.pairwise_cons.mpr ⟨hr, ihd hd⟩, ?_⟩
    intro a ha b hb
    rcases List.mem_cons.mp hb with rfl | hb
    · exact hl a ha
    · exact antes_trans (hl a ha) (hr b hb)

theorem pairwise_antes_nodup {l : List CStr} (h : l.Pairwise antes) : l.Nodup :=
  h.imp (fun {a b} (hab : antes a b) (heq : a = b) => antes_irrefl b (heq ▸ hab))

theorem pairwise_antes_ext {l m : List CStr} (hl : l.Pairwise antes) (hm : m.Pairwise antes)
    (h : ∀ x, x ∈ l ↔ x ∈ m) : l = m := by
  haveI : IsAntisymm CStr antes := ⟨fun _ _ hab hba => absurd hba (antes_asymm hab)⟩
  exact List.eq_of_perm_of_sorted
    ((List.perm_ext_iff_of_nodup (pairwise_antes_nodup hl) (pairwise_antes_nodup hm)).mpr h) hl hm

theorem inserirPista_of_mem (t : PistaNode) (x : CStr) (h : ordenada t)
    (hx : x ∈ textos t) : inserirPista t x = t := by
  induction t with
  | nulo => simp [textos] at hx
  | no c e d ihe ihd =>
    obtain ⟨hl, hr, he, hd⟩ := h
    simp only [textos, List.mem_append, List.mem_cons] at hx
    simp only [inserirPista]
    split_ifs with h1 h2
    · rcases hx with hx | rfl | hx
      · rw [ihe he hx]
      · exact absurd h1 (antes_irrefl _)
      · exact absurd h1 (antes_asymm (hr x hx))
    · have h2' : antes c x := strcmp_pos_iff.mp h2
      rcases hx with hx | rfl | hx
      · exact absurd h2' (antes_asymm (hl x hx))
      · exact absurd h2' (antes_irrefl _)
      · rw [ihd hd hx]
    · rfl

theorem inserirPista_idem (t : PistaNode) (x : CStr) :
    inserirPista (inserirPista t x) x = inserirPista t x := by
  induction t with
  | nulo => simp [inserirPista, criarPistaNode, strcmp_self]
  | no c e d ihe ihd =>
    simp only [inserirPista]
    split_ifs with h1 h2
    · simp [inserirPista, h1, ihe]
    · simp [inserirPista, h1, h2, ihd]
    · simp [inserirPista, h1, h2]

theorem enumerar_inserirTodas_pairwise (pistas : List CStr) :
    (enumerar (inserirTodas .nulo pistas)).Pairwise antes := by
  rw [enumerar_eq_textos]
  exact textos_pairwise _ (ordenada_inserirTodas .nulo pistas trivial)

theorem mem_enumerar_inserirTodas (pistas : List CStr) (y : CStr) :
    y ∈ enumerar (inserirTodas .nulo pistas) ↔ y ∈ pistas := by
  rw [enumerar_eq_textos, mem_textos_inserirTodas]
  simp [textos]

/-! ### The bound of `char conteudo[100]` -/

/-- A text of at most 99 bytes fits the node: the insertion is defined and returns the tree
of `inserirPista`. -/
theorem inserirPistaComLimite_eq_some (t : PistaNode) (x : CStr) (hx : x.length < 100) :
    inserirPistaComLimite t x = some (inserirPista t x) := by
  induction t with
  | nulo =>
    have : x.length + 1 ≤ 100 := by omega
    simp [inserirPistaComLimite, criarPistaNodeComLimite, strcpy, this, inserirPista,
      criarPistaNode]
  | no c e d ihe ihd =>
    simp only [inserirPistaComLimite, inserirPista]
    split_ifs with h1 h2
    · rw [ihe]
    · rw [ihd]
    · rfl

/-- Whenever the insertion is defined it returns the tree of `inserirPista`. -/
theorem inserirPistaComLimite_valor {t t1 : PistaNode} {x : CStr}
    (h : inserirPistaComLimite t x = some t1) : t1 = inserirPista t x := by
  induction t generalizing t1 with
  | nulo =>
    simp only [inserirPistaComLimite, criarPistaNodeComLimite, strcpy] at h
    split_ifs at h
    simp only [Option.some.injEq] at h
    rw [← h]; rfl
  | no c e d ihe ihd =>
    simp only [inserirPistaComLimite] at h
    simp only [inserirPista]
    split_ifs at h ⊢ with h1 h2
    · cases he : inserirPistaComLimite e x with
      | none => rw [he] at h; exact absurd h (by simp)
      | some e1 =>
        rw [he] at h
        simp only [Option.some.injEq] at h
        rw [← h, ihe he]
    · cases hd : inserirPistaComLimite d x with
      | none => rw [hd] at h; exact absurd h (by simp)
      | some d1 =>
        rw [hd] at h
        simp only [Option.some.injEq] at h
        rw [← h, ihd hd]
    · simp only [Option.some.injEq] at h
      exact h.symm

/-- A text found in a search tree is not copied: the insertion is defined, whatever the
length of the text, and leaves the tree as it is. -/
theorem inserirPistaComLimite_of_mem (t : PistaNode) (x : CStr) (h : ordenada t)
    (hx : x ∈ textos t) : inserirPistaComLimite t x = some t := by
  induction t with
  | nulo => simp [textos] at hx
  | no c e d ihe ihd =>
    obtain ⟨hl, hr, he, hd⟩ := h
    simp only [textos, List.mem_append, List.mem_cons] at hx
    simp only [inserirPistaComLimite]
    split_ifs with h1 h2
    · rcases hx with hx | rfl | hx
      · rw [ihe he hx]
      · exact absurd h1 (antes_irrefl _)
      · exact absurd h1 (antes_asymm (hr x hx))
    · have h2' : antes c x := strcmp_pos_iff.mp h2
      rcases hx with hx | rfl | hx
      · exact absurd h2' (antes_asymm (hl x hx))
      · exact absurd h2' (antes_irrefl _)
      · rw [ihd hd hx]
    · rfl

/-- A text of 100 bytes or more, inserted into a tree whose texts all fit their nodes, reaches
a `NULL` and its copy writes past the array. -/
theorem inserirPistaComLimite_eq_none (t : PistaNode) (x : CStr)
    (ht : ∀ c ∈ textos t, c.length < 100) (hx : 100 ≤ x.length) :
    inserirPistaComLimite t x = none := by
  induction t with
  | nulo =>
    have : ¬ x.length + 1 ≤ 100 := by omega
    simp [inserirPistaComLimite, criarPistaNodeComLimite, strcpy, this]
  | no c e d ihe ihd =>
    simp only [textos, List.mem_append, List.mem_cons] at ht
    simp only [inserirPistaComLimite]
    split_ifs with h1 h2
    · rw [ihe (fun y hy => ht y (Or.inl hy))]
    · rw [ihd (fun y hy => ht y (Or.inr (Or.inr hy)))]
    · have hxc : x = c := strcmp_eq_zero.mp (by omega)
      have := ht c (Or.inr (Or.inl rfl))
      rw [← hxc] at this
      omega

theorem inserirTodasComLimite_eq_some (pistas : List CStr) :
    ∀ (t : PistaNode), (∀ p ∈ pistas, p.length < 100) →
      inserirTodasComLimite t pistas = some (inserirTodas t pistas) := by
  induction pistas with
  | nil => intro t _; rfl
  | cons p resto ih =>
    intro t h
    simp only [inserirTodasComLimite]
    rw [inserirPistaComLimite_eq_some t p (h p (List.mem_cons_self p resto))]
    simp only
    rw [ih _ (fun q hq => h q (List.mem_cons_of_mem p hq))]
    rfl

/-- The insertions of a list into a tree whose texts fit their nodes are defined only when
every text of the list has at most 99 bytes; the tree is then the one of `inserirTodas`, and
its texts fit their nodes. -/
theorem inserirTodasComLimite_valor (pistas : List CStr) :
    ∀ {t u : PistaNode}, inserirTodasComLimite t pistas = some u →
      (∀ c ∈ textos t, c.length < 100) →
      (∀ p ∈ pistas, p.length < 100) ∧ u = inserirTodas t pistas ∧
        ∀ c ∈ textos u, c.length < 100 := by
  induction pistas with
  | nil =>
    intro t u h ht
    simp only [inserirTodasComLimite, Option.some.injEq] at h
    subst h
    exact ⟨fun p hp => absurd hp (List.not_mem_nil p), rfl, ht⟩
  | cons p resto ih =>
    intro t u h ht
    simp only [inserirTodasComLimite] at h
    have hp : p.length < 100 := by
      by_contra hc
      rw [inserirPistaComLimite_eq_none t p ht (by omega)] at h
      exact absurd h (by simp)
    rw [inserirPistaComLimite_eq_some t p hp] at h
    simp only at h
    have ht1 : ∀ c ∈ textos (inserirPista t p), c.length < 100 := by
      intro c hc
      rcases (mem_textos_inserirPista t p c).mp hc with rfl | hc
      · exact hp
      · exact ht c hc
    obtain ⟨h1, h2, h3⟩ := ih h ht1
    refine ⟨?_, ?_, h3⟩
    · intro q hq
      rcases List.mem_cons.mp hq with rfl | hq
      · exact hp
      · exact h1 q hq
    · rw [h2]; rfl

set_option maxRecDepth 100000 in
/-- C1, counterexample: a clue string of 150 bytes inserted twice from the empty tree.  The
first insertion reaches `NULL` and the `strcpy` of `criarPistaNode` writes 151 bytes into
`char conteudo[100]`: the insertions are not defined, and there is no tree whose listing
could be strictly ascending. -/
theorem exibirPistas_texto_longo_indefinida :
    inserirTodasComLimite .nulo [List.replicate 150 97, List.replicate 150 97] = none ∧
      ¬ ∃ t, inserirTodasComLimite .nulo [List.replicate 150 97, List.replicate 150 97] =
          some t ∧
        ((exibirPistas t 0).1.map Prod.snd).Pairwise (fun a b => strcmp a b < 0) :=
  have h : inserirTodasComLimite .nulo [List.replicate 150 97, List.replicate 150 97] =
      none := by decide
  ⟨h, fun ⟨_, ht, _⟩ => absurd (h.symm.trans ht) (by simp)⟩

/-- C1: for every finite sequence of clue strings of at most 99 bytes each, so that every
text and its NUL fit `char conteudo[100]`, inserted with `inserirPista` from the empty tree,
the insertions are defined and the texts printed by `exibirPistas` (whatever the counter
starts at) are strictly ascending under `strcmp`: each printed text compares strictly below
every text printed after it, so the listing is sorted and no string is printed twice.  The
bound is the exact one: the insertions of a sequence are defined only when every string of
it has at most 99 bytes. -/
theorem exibirPistas_crescente_com_limite (pistas : List CStr) (contador : Int)
    (h : ∀ p ∈ pistas, p.length ≤ 99) :
    (∃ t, inserirTodasComLimite .nulo pistas = some t ∧
      ((exibirPistas t contador).1.map Prod.snd).Pairwise (fun a b => strcmp a b < 0) ∧
      ((exibirPistas t contador).1.map Prod.snd).Nodup) ∧
    ∀ (outras : List CStr) (u : PistaNode), inserirTodasComLimite .nulo outras = some u →
      ∀ p ∈ outras, p.length ≤ 99 := by
  constructor
  · refine ⟨inserirTodas .nulo pistas,
      inserirTodasComLimite_eq_some pistas .nulo (fun p hp => by have := h p hp; omega), ?_⟩
    rw [exibirPistas_textos]
    have h := textos_pairwise _ (ordenada_inserirTodas .nulo pistas trivial)
    exact ⟨h, pairwise_antes_nodup h⟩
  · intro outras u hu p hp
    have := (inserirTodasComLimite_valor outras hu
      (fun c hc => absurd hc (by simp [textos]))).1 p hp
    omega

/-- Witness for C1: `b`, `a`, `b` inserted from the empty tree are listed as `a`, `b`. -/
theorem exibirPistas_crescente_com_limite_witness :
    (∀ p ∈ [[98], [97], [98]], p.length ≤ 99) ∧
      inserirTodasComLimite .nulo [[98], [97], [98]] =
        some (.no [98] (.no [97] .nulo .nulo) .nulo) ∧
      (exibirPistas (.no [98] (.no [97] .nulo .nulo) .nulo) 0).1.map Prod.snd = [[97], [98]] ∧
      ∃ t, inserirTodasComLimite .nulo [[98], [97], [98]] = some t ∧
        ((exibirPistas t 0).1.map Prod.snd).Pairwise (fun a b => strcmp a b < 0) ∧
        ((exibirPistas t 0).1.map Prod.snd).Nodup :=
  ⟨by decide, by decide, by decide,
    (exibirPistas_crescente_com_limite [[98], [97], [98]] 0 (by decide)).1⟩

set_option maxRecDepth 100000 in
/-- C2, counterexample: the list of `a` and a string of 150 bytes.  `a` is inserted, the
second insertion reaches `NULL` and its `strcpy` writes past `char conteudo[100]`: the
insertions are not defined, and no tree enumerates the two strings of the list. -/
theorem enumerar_texto_longo_indefinida :
    inserirTodasComLimite .nulo [[97]] = some (.no [97] .nulo .nulo) ∧
      inserirTodasComLimite .nulo [[97], List.replicate 150 97] = none ∧
      ¬ ∃ t, inserirTodasComLimite .nulo [[97], List.replicate 150 97] = some t ∧
        (enumerar t).Perm [[97], List.replicate 150 97].dedup :=
  have h : inserirTodasComLimite .nulo [[97], List.replicate 150 97] = none := by decide
  ⟨by decide, h, fun ⟨_, ht, _⟩ => absurd (h.symm.trans ht) (by simp)⟩

/-- C2: permutation invariance for clue strings of at most 99 bytes.  The insertions of such
a list one by one from the empty tree are defined, and the enumeration of the tree is a
rearrangement of the distinct strings of the list (nothing lost, nothing added, nothing
twice); hence for two lists that are permutations of each other, or merely have the same
elements, the insertions are defined for both and give the same enumerated sequence. -/
theorem enumerar_permutacao_com_limite (xs : List CStr) (h : ∀ p ∈ xs, p.length ≤ 99) :
    ∃ t, inserirTodasComLimite .nulo xs = some t ∧ (enumerar t).Perm xs.dedup ∧
      ∀ ys : List CStr, (xs.Perm ys ∨ ∀ x, x ∈ xs ↔ x ∈ ys) →
        ∃ u, inserirTodasComLimite .nulo ys = some u ∧ enumerar t = enumerar u := by
  refine ⟨inserirTodas .nulo xs,
    inserirTodasComLimite_eq_some xs .nulo (fun p hp => by have := h p hp; omega), ?_, ?_⟩
  · refine (List.perm_ext_iff_of_nodup
      (pairwise_antes_nodup (enumerar_inserirTodas_pairwise xs)) (List.nodup_dedup xs)).mpr ?_
    intro a
    rw [mem_enumerar_inserirTodas, List.mem_dedup]
  · intro ys hys
    have hmem : ∀ x, x ∈ xs ↔ x ∈ ys := by
      rcases hys with hp | hp
      · exact fun x => hp.mem_iff
      · exact hp
    refine ⟨inserirTodas .nulo ys,
      inserirTodasComLimite_eq_some ys .nulo
        (fun p hp => by have := h p ((hmem p).mpr hp); omega), ?_⟩
    apply pairwise_antes_ext (enumerar_inserirTodas_pairwise xs)
      (enumerar_inserirTodas_pairwise ys)
    intro x
    rw [mem_enumerar_inserirTodas, mem_enumerar_inserirTodas]
    exact hmem x

/-- Witness for C2: `[b, a]` and `[a, b]` are permutations of each other, build trees of
different shapes, and enumerate to the same sequence. -/
theorem enumerar_permutacao_com_limite_witness :
    (∀ p ∈ [[98], [97]], p.length ≤ 99) ∧ List.Perm [[98], [97]] [[97], [98]] ∧
      inserirTodasComLimite .nulo [[98], [97]] ≠ inserirTodasComLimite .nulo [[97], [98]] ∧
      ∃ t, inserirTodasComLimite .nulo [[98], [97]] = some t ∧
        (enumerar t).Perm [[98], [97]].dedup ∧
        ∃ u, inserirTodasComLimite .nulo [[97], [98]] = some u ∧ enumerar t = enumerar u :=
  ⟨by decide, by decide, by decide,
    (enumerar_permutacao_com_limite [[98], [97]] (by decide)).elim
      (fun t ht => ⟨t, ht.1, ht.2.1, ht.2.2 [[97], [98]] (Or.inl (by decide))⟩)⟩

set_option maxRecDepth 100000 in
/-- C3, counterexample: the tree holding `b`, reached by one insertion from the empty tree,
and a string `x` of 150 bytes.  The insertion of `x` passes the node, reaches `NULL`, and the
`strcpy` of `criarPistaNode` writes 151 bytes into `char conteudo[100]`: `inserirPista(t, x)`
is not defined, so there is no tree to insert `x` into a second time. -/
theorem inserirPista_texto_longo_indefinida :
    inserirTodasComLimite .nulo [[98]] = some (.no [98] .nulo .nulo) ∧
      inserirPistaComLimite (.no [98] .nulo .nulo) (List.replicate 150 97) = none ∧
      ¬ ∃ t1, inserirPistaComLimite (.no [98] .nulo .nulo) (List.replicate 150 97) = some t1 ∧
        inserirPistaComLimite t1 (List.replicate 150 97) = some t1 :=
  have h : inserirPistaComLimite (.no [98] .nulo .nulo) (List.replicate 150 97) = none := by
    decide
  ⟨by decide, h, fun ⟨_, ht, _⟩ => absurd (h.symm.trans ht) (by simp)⟩

/-- C3: idempotence of clue insertion for strings of at most 99 bytes.  For every tree `t`
reached by insertions from the empty tree and every string `x` of at most 99 bytes, the
insertion of `x` is defined, and inserting `x` a second time is defined and gives the same
tree, hence the same enumerated sequence, as inserting it once; and when `x` already occurs
in `t`, inserting it is defined and leaves `t` unchanged.  A string of 100 bytes or more does
not occur in such a tree, and its insertion is not defined. -/
theorem inserirPista_idempotente_com_limite (pistas : List CStr) (t : PistaNode) (x : CStr)
    (ht : inserirTodasComLimite .nulo pistas = some t) :
    (x.length ≤ 99 →
      ∃ t1, inserirPistaComLimite t x = some t1 ∧ inserirPistaComLimite t1 x = some t1 ∧
        (inserirPistaComLimite t1 x).map enumerar = some (enumerar t1)) ∧
    (x ∈ enumerar t → inserirPistaComLimite t x = some t) ∧
    (100 ≤ x.length → x ∉ enumerar t ∧ inserirPistaComLimite t x = none) := by
  obtain ⟨_, htv, htl⟩ := inserirTodasComLimite_valor pistas ht
    (fun c hc => absurd hc (by simp [textos]))
  have hord : ordenada t := by rw [htv]; exact ordenada_inserirTodas .nulo pistas trivial
  refine ⟨?_, ?_, ?_⟩
  · intro hx
    have hx1 : x.length < 100 := by omega
    have h2 : inserirPistaComLimite (inserirPista t x) x = some (inserirPista t x) := by
      rw [inserirPistaComLimite_eq_some _ x hx1, inserirPista_idem]
    exact ⟨inserirPista t x, inserirPistaComLimite_eq_some t x hx1, h2, by rw [h2]; rfl⟩
  · intro hx
    rw [enumerar_eq_textos] at hx
    exact inserirPistaComLimite_of_mem t x hord hx
  · intro hx
    refine ⟨?_, inserirPistaComLimite_eq_none t x htl hx⟩
    intro hmem
    rw [enumerar_eq_textos] at hmem
    have := htl x hmem
    omega

/-- Witness for C3: after inserting `c`, `a`, `b`, the text `a` occurs in the tree and
inserting it again returns the same tree. -/
theorem inserirPista_idempotente_com_limite_witness :
    inserirTodasComLimite .nulo [[99], [97], [98]] =
        some (.no [99] (.no [97] .nulo (.no [98] .nulo .nulo)) .nulo) ∧
      [97] ∈ enumerar (.no [99] (.no [97] .nulo (.no [98] .nulo .nulo)) .nulo) ∧
      inserirPistaComLimite (.no [99] (.no [97] .nulo (.no [98] .nulo .nulo)) .nulo) [97] =
        some (.no [99] (.no [97] .nulo (.no [98] .nulo .nulo)) .nulo) :=
  ⟨by decide, by decide,
    (inserirPista_idempotente_com_limite [[99], [97], [98]]
      (.no [99] (.no [97] .nulo (.no [98] .nulo .nulo)) .nulo) [97] (by decide)).2.1
      (by decide)⟩

set_option maxRecDepth 100000 in
/-- C16, counterexample: the empty tree has the invariant, a string of 99 bytes is inserted
into it, and for a string of 100 bytes the `strcpy` of `criarPistaNode` writes 101 bytes into
`char conteudo[100]`: `inserirPista` returns no tree of which the invariant could hold. -/
theorem inserirPista_cem_bytes_indefinida :
    ordenada .nulo ∧
      (inserirPistaComLimite .nulo (List.replicate 99 97)).isSome = true ∧
      inserirPistaComLimite .nulo (List.replicate 100 97) = none ∧
      ¬ ∃ t1, inserirPistaComLimite .nulo (List.replicate 100 97) = some t1 ∧ ordenada t1 :=
  have h : inserirPistaComLimite .nulo (List.replicate 100 97) = none := by decide
  ⟨trivial, by decide, h, fun ⟨_, ht, _⟩ => absurd (h.symm.trans ht) (by simp)⟩

/-- C16: `inserirPista` preserves the search-tree invariant for strings of at most 99 bytes:
when at every node of a tree the left subtree holds only strictly smaller strings under
`strcmp` and the right subtree only strictly larger ones, the insertion of such a string is
defined and the same holds of the tree it returns; the empty tree has the invariant, hence so
has every tree reached by insertions. -/
theorem inserirPista_preserva_ordenada_com_limite (t : PistaNode) (x : CStr)
    (h : ordenada t) (hx : x.length ≤ 99) :
    (∃ t1, inserirPistaComLimite t x = some t1 ∧ ordenada t1) ∧ ordenada .nulo ∧
      ∀ (pistas : List CStr) (u : PistaNode),
        inserirTodasComLimite .nulo pistas = some u → ordenada u := by
  refine ⟨⟨inserirPista t x, inserirPistaComLimite_eq_some t x (by omega),
    ordenada_inserirPista t x h⟩, trivial, ?_⟩
  intro pistas u hu
  rw [(inserirTodasComLimite_valor pistas hu (fun c hc => absurd hc (by simp [textos]))).2.1]
  exact ordenada_inserirTodas .nulo pistas trivial

/-- Witness for C16: the tree holding `b` with `a` to its left has the invariant, and keeps
it when `c` is inserted. -/
theorem inserirPista_preserva_ordenada_com_limite_witness :
    ordenada (.no [98] (.no [97] .nulo .nulo) .nulo) ∧ [99].length ≤ 99 ∧
      inserirPistaComLimite (.no [98] (.no [97] .nulo .nulo) .nulo) [99] =
        some (.no [98] (.no [97] .nulo .nulo) (.no [99] .nulo .nulo)) ∧
      ∃ t1, inserirPistaComLimite (.no [98] (.no [97] .nulo .nulo) .nulo) [99] = some t1 ∧
        ordenada t1 :=
  have h : ordenada (.no [98] (.no [97] .nulo .nulo) .nulo) := by
    simp [ordenada, textos, antes, strcmp]
  ⟨h, by decide, by decide,
    (inserirPista_preserva_ordenada_com_limite (.no [98] (.no [97] .nulo .nulo) .nulo) [99] h
      (by decide)).1⟩

/-! ### The hash function -/

theorem int32_eq_self {x : Int} (h1 : -2147483648 ≤ x) (h2 : x < 2147483648) : int32 x = x := by
  unfold int32
  rw [Int.emod_eq_of_lt (by omega) (by omega)]
  omega

/-- The sum of the character codes of a string, as `int` values of plain `char`. -/
theorem charParaInt_bounds (sg : Bool) {b : Nat} (hb : b < 256) :
    -128 ≤ charParaInt sg b ∧ charParaInt sg b ≤ 255 := by
  unfold charParaInt
  split_ifs with h <;> omega

theorem charParaInt_nonneg_of_unsigned {b : Nat} : 0 ≤ charParaInt false b := by
  simp [charParaInt]

theorem funcaoHashLaco_eq_sum (sg : Bool) (s : CStr) (hash : Int)
    (hs : ∀ b ∈ s, b < 256)
    (hlo : -2147483648 ≤ hash - 128 * s.length) (hhi : hash + 255 * s.length < 2147483648) :
    funcaoHashLaco sg s hash = hash + (s.map (charParaInt sg)).sum := by
  induction s generalizing hash with
  | nil => simp [funcaoHashLaco]
  | cons b r ih =>
    have hb := charParaInt_bounds sg (hs b (List.mem_cons_self b r))
    simp only [List.length_cons, Nat.cast_add, Nat.cast_one] at hlo hhi
    simp only [funcaoHashLaco, List.map_cons, List.sum_cons]
    rw [int32_eq_self (by omega) (by omega)]
    rw [ih _ (fun x hx => hs x (List.mem_cons_of_mem b hx)) (by omega) (by omega)]
    omega

theorem soma_bounds (sg : Bool) (s : CStr) (hs : ∀ b ∈ s, b < 256) :
    -128 * (s.length : Int) ≤ (s.map (charParaInt sg)).sum ∧
      (s.map (charParaInt sg)).sum ≤ 255 * (s.length : Int) := by
  induction s with
  | nil => simp
  | cons b r ih =>
    have hb := charParaInt_bounds sg (hs b (List.mem_cons_self b r))
    have := ih (fun x hx => hs x (List.mem_cons_of_mem b hx))
    simp only [List.length_cons, Nat.cast_add, Nat.cast_one, List.map_cons, List.sum_cons]
    omega

theorem soma_nonneg_of_small (sg : Bool) (s : CStr)
    (hs : ∀ b ∈ s, sg = false ∨ b < 128) : 0 ≤ (s.map (charParaInt sg)).sum := by
  induction s with
  | nil => simp
  | cons b r ih =>
    have := ih (fun x hx => hs x (List.mem_cons_of_mem b hx))
    have hb : 0 ≤ charParaInt sg b := by
      unfold charParaInt
      rcases hs b (List.mem_cons_self b r) with h | h
      · subst h; simp
      · split_ifs with h' <;> omega
    simp only [List.map_cons, List.sum_cons]
    omega

/-- For a string of bytes shorter than 100, `funcaoHash` is the sum of the character codes
reduced by C's `%`: the 32-bit accumulator never wraps. -/
theorem funcaoHash_eq_sum (sg : Bool) (s : CStr) (hs : ∀ b ∈ s, b < 256) (hl : s.length < 100) :
    funcaoHash sg s = Int.tmod (s.map (charParaInt sg)).sum 20 := by
  unfold funcaoHash
  rw [funcaoHashLaco_eq_sum sg s 0 hs (by omega) (by omega)]
  simp [TAMANHO_HASH]

/-- Where plain `char` is unsigned, or the string has no byte above 127, the hash of a string
shorter than 100 bytes is a valid bucket index. -/
theorem funcaoHash_in_range (sg : Bool) (s : CStr) (hs : ∀ b ∈ s, b < 256)
    (hl : s.length < 100) (hsg : ∀ b ∈ s, sg = false ∨ b < 128) :
    0 ≤ funcaoHash sg s ∧ funcaoHash sg s < TAMANHO_HASH := by
  rw [funcaoHash_eq_sum sg s hs hl]
  exact ⟨Int.tmod_nonneg _ (soma_nonneg_of_small sg s hsg),
    Int.tmod_lt_of_pos _ (by simp [TAMANHO_HASH])⟩

/-- C7, the failing input: where plain `char` is signed, the two bytes of the UTF-8 letter
`ê` (0xC3 0xAA) have the character codes -61 and -86, `funcaoHash` returns -7 and not an
index in `0 .. TAMANHO_HASH-1`, and `tabela->tabela[-7]` is outside the bucket array. -/
theorem funcaoHash_negativo_com_char_com_sinal :
    (∀ b ∈ [195, 170], 0 < b ∧ b < 256) ∧ [195, 170].length < 100 ∧
      funcaoHash true [195, 170] = -7 ∧
      lerBalde criarTabelaHash (funcaoHash true [195, 170]) = none := by
  decide

/-! ### The suspect table -/

theorem inserirNaHash_eq_some {sg : Bool} {t t1 : TabelaHash} {k s : CStr}
    (h : inserirNaHash sg t k s = some t1) :
    ∃ cabeca, lerBalde t (funcaoHash sg k) = some cabeca ∧
      t1 = ⟨t.tabela.set (funcaoHash sg k).toNat (⟨k, s⟩ :: cabeca)⟩ := by
  simp only [inserirNaHash] at h
  split at h
  · exact absurd h (by simp)
  · next cabeca hcab =>
    simp only [Option.some.injEq] at h
    exact ⟨cabeca, hcab, h.symm⟩

theorem tabela_length_inserirNaHash {sg : Bool} {t t1 : TabelaHash} {c s : CStr}
    (h : inserirNaHash sg t c s = some t1) : t1.tabela.length = t.tabela.length := by
  obtain ⟨cabeca, -, rfl⟩ := inserirNaHash_eq_some h
  simp

theorem tabela_length_inserirVarias {sg : Bool} {t t1 : TabelaHash} {ops : List (CStr × CStr)}
    (h : inserirVarias sg t ops = some t1) : t1.tabela.length = t.tabela.length := by
  induction ops generalizing t with
  | nil => simp only [inserirVarias, Option.some.injEq] at h; rw [h]
  | cons p r ih =>
    obtain ⟨c, s⟩ := p
    simp only [inserirVarias] at h
    split at h
    · exact absurd h (by simp)
    · next t2 h2 => rw [ih h, tabela_length_inserirNaHash h2]

theorem lerBalde_isSome {t : TabelaHash} (ht : t.tabela.length = TAMANHO_HASH) {i : Int}
    (h0 : 0 ≤ i) (h1 : i < TAMANHO_HASH) : ∃ b, lerBalde t i = some b := by
  have hlt : i.toNat < t.tabela.length := by rw [ht]; omega
  exact ⟨t.tabela[i.toNat], by simp [lerBalde, h0, h1, List.getElem?_eq_getElem hlt]⟩

theorem lerBalde_eq_none {t : TabelaHash} {i : Int} (h : ¬ (0 ≤ i ∧ i < TAMANHO_HASH)) :
    lerBalde t i = none := by
  simp [lerBalde, h]

/-- After `inserirNaHash` of the key `k`, a lookup of `k` finds the new suspect and a lookup
of any other key gives what it gave before. -/
theorem encontrarSuspeito_inserirNaHash {sg : Bool} {t t1 : TabelaHash} {k s : CStr}
    (h : inserirNaHash sg t k s = some t1) (c : CStr) :
    encontrarSuspeito sg t1 c = if c = k then some (some s) else encontrarSuspeito sg t c := by
  obtain ⟨cabeca, hcab, rfl⟩ := inserirNaHash_eq_some h
  have hk : (0 ≤ funcaoHash sg k ∧ funcaoHash sg k < TAMANHO_HASH) := by
    by_contra hn
    rw [lerBalde_eq_none hn] at hcab
    exact absurd hcab (by simp)
  have hcab' : t.tabela[(funcaoHash sg k).toNat]? = some cabeca := by
    simpa [lerBalde, hk] using hcab
  have hlt : (funcaoHash sg k).toNat < t.tabela.length := by
    by_contra hn
    rw [List.getElem?_eq_none (by omega)] at hcab'
    exact absurd hcab' (by simp)
  by_cases hck : c = k
  · subst hck
    simp [encontrarSuspeito, lerBalde, hk, List.getElem?_set_self hlt, percorrerLista, strcmp_self]
  · simp only [hck, if_false]
    unfold encontrarSuspeito
    by_cases hv : (0 ≤ funcaoHash sg c ∧ funcaoHash sg c < TAMANHO_HASH)
    · by_cases hi : funcaoHash sg c = funcaoHash sg k
      · have hne : ¬ strcmp k c = 0 := fun h0 => hck (strcmp_eq_zero.mp h0).symm
        simp [lerBalde, hk, hi, List.getElem?_set_self hlt, hcab', percorrerLista, hne]
      · have hne : (funcaoHash sg k).toNat ≠ (funcaoHash sg c).toNat := by omega
        simp [lerBalde, hv, List.getElem?_set_ne hne]
    · simp [lerBalde_eq_none hv]

theorem encontrarSuspeito_criarTabelaHash (sg : Bool) (c : CStr) :
    encontrarSuspeito sg criarTabelaHash c =
      if 0 ≤ funcaoHash sg c ∧ funcaoHash sg c < TAMANHO_HASH then some none else none := by
  unfold encontrarSuspeito
  split_ifs with hv
  · have hlt : (funcaoHash sg c).toNat < List.length (List.replicate TAMANHO_HASH ([] : List HashNode)) := by
      simp; omega
    simp [lerBalde, hv, criarTabelaHash, List.getElem?_eq_getElem hlt, percorrerLista]
  · simp [lerBalde_eq_none hv]

/-- After a run of insertions, a lookup gives the suspect of the last insertion with that
key, and what the table gave before the run when there is no such insertion. -/
theorem encontrarSuspeito_inserirVarias {sg : Bool} {t t1 : TabelaHash}
    {ops : List (CStr × CStr)} (h : inserirVarias sg t ops = some t1) (c : CStr) :
    encontrarSuspeito sg t1 c =
      match ultimaAssociacao ops c with
      | some s => some (some s)
      | none => encontrarSuspeito sg t c := by
  induction ops generalizing t with
  | nil =>
    simp only [inserirVarias, Option.some.injEq] at h
    simp [ultimaAssociacao, h]
  | cons p r ih =>
    obtain ⟨k, s⟩ := p
    simp only [inserirVarias] at h
    split at h
    · exact absurd h (by simp)
    · next t2 h2 =>
      rw [ih h, encontrarSuspeito_inserirNaHash h2 c]
      simp only [ultimaAssociacao]
      cases ultimaAssociacao r c with
      | some s1 => rfl
      | none =>
        by_cases hck : c = k
        · subst hck; simp
        · have : ¬ k = c := fun e => hck e.symm
          simp [hck, this]

theorem tabela_length_criarTabelaHash : criarTabelaHash.tabela.length = TAMANHO_HASH := by
  simp [criarTabelaHash]

/-- An insertion whose key hashes into the array succeeds, and a lookup of the key right after
it finds the inserted suspect. -/
theorem encontrarSuspeito_apos_inserirNaHash (sg : Bool) (t : TabelaHash) (c s : CStr)
    (ht : t.tabela.length = TAMANHO_HASH)
    (h0 : 0 ≤ funcaoHash sg c) (h1 : funcaoHash sg c < TAMANHO_HASH) :
    ∃ t1, inserirNaHash sg t c s = some t1 ∧ t1.tabela.length = TAMANHO_HASH ∧
      encontrarSuspeito sg t1 c = some (some s) := by
  obtain ⟨b, hb⟩ := lerBalde_isSome ht h0 h1
  have hins : inserirNaHash sg t c s =
      some ⟨t.tabela.set (funcaoHash sg c).toNat (⟨c, s⟩ :: b)⟩ := by
    simp [inserirNaHash, hb]
  refine ⟨_, hins, ?_, ?_⟩
  · simpa using ht
  · rw [encontrarSuspeito_inserirNaHash hins c]; simp

/-- On a table reached from `criarTabelaHash` by insertions, the lookup of a key that hashes
into the array returns the suspect of the last insertion with that key, and `NULL` when the
key was never inserted. -/
theorem encontrarSuspeito_alcancavel {sg : Bool} {t : TabelaHash} {ops : List (CStr × CStr)}
    (h : inserirVarias sg criarTabelaHash ops = some t) (c : CStr)
    (h0 : 0 ≤ funcaoHash sg c) (h1 : funcaoHash sg c < TAMANHO_HASH) :
    encontrarSuspeito sg t c = some (ultimaAssociacao ops c) := by
  rw [encontrarSuspeito_inserirVarias h c, encontrarSuspeito_criarTabelaHash]
  cases ultimaAssociacao ops c <;> simp [h0, h1]

/-- A run of insertions whose keys all hash into the array succeeds. -/
theorem inserirVarias_isSome (sg : Bool) (t : TabelaHash) (ops : List (CStr × CStr))
    (ht : t.tabela.length = TAMANHO_HASH)
    (h : ∀ p ∈ ops, 0 ≤ funcaoHash sg p.1 ∧ funcaoHash sg p.1 < TAMANHO_HASH) :
    ∃ t1, inserirVarias sg t ops = some t1 := by
  induction ops generalizing t with
  | nil => exact ⟨t, rfl⟩
  | cons p r ih =>
    obtain ⟨c, s⟩ := p
    obtain ⟨h0, h1⟩ := h (c, s) (List.mem_cons_self _ _)
    obtain ⟨t1, ht1, hlen, -⟩ := encontrarSuspeito_apos_inserirNaHash sg t c s ht h0 h1
    obtain ⟨t2, ht2⟩ := ih t1 hlen (fun q hq => h q (List.mem_cons_of_mem _ hq))
    exact ⟨t2, by simp [inserirVarias, ht1, ht2]⟩

/-- C4, the failing input: where plain `char` is signed, inserting the clue `ê` into the
fresh table addresses slot -7, outside the bucket array, so no lookup result `s` is
guaranteed after it. -/
theorem inserirNaHash_fora_do_vetor :
    inserirNaHash true criarTabelaHash [195, 170] [83] = none ∧
      (inserirNaHash true criarTabelaHash [195, 170] [83]).bind
          (fun t => encontrarSuspeito true t [195, 170]) ≠ some (some [83]) := by
  decide

/-- C5, the failing input: where plain `char` is signed, two insertions for the clue `ê`
already leave the bucket array at the first one, so the lookup after them is not defined to
return the second suspect. -/
theorem inserirVarias_fora_do_vetor :
    inserirVarias true criarTabelaHash [([195, 170], [83]), ([195, 170], [84])] = none ∧
      (inserirVarias true criarTabelaHash [([195, 170], [83]), ([195, 170], [84])]).bind
          (fun t => encontrarSuspeito true t [195, 170]) ≠ some (some [84]) := by
  decide

/-- C6, the failing input: where plain `char` is signed, the lookup of the never inserted clue
`ê` in the fresh table reads slot -7, outside the bucket array, instead of returning `NULL`. -/
theorem encontrarSuspeito_fora_do_vetor :
    encontrarSuspeito true criarTabelaHash [195, 170] = none ∧
      encontrarSuspeito true criarTabelaHash [195, 170] ≠ some none := by
  decide

/-! ### Counting and listing the clues of a suspect -/

theorem apontaPara_iff (r : Option CStr) (a : CStr) : apontaPara r a = true ↔ r = some a := by
  cases r with
  | none => simp [apontaPara]
  | some s => simp [apontaPara, strcmp_eq_zero]

theorem consultarTodas_append (sg : Bool) (t : TabelaHash) (l1 l2 : List CStr) :
    consultarTodas sg t (l1 ++ l2) =
      match consultarTodas sg t l1 with
      | none => none
      | some r1 =>
        match consultarTodas sg t l2 with
        | none => none
        | some r2 => some (r1 ++ r2) := by
  induction l1 with
  | nil => cases h : consultarTodas sg t l2 <;> simp [consultarTodas, h]
  | cons c r ih =>
    simp only [List.cons_append, consultarTodas, List.append_eq]
    rw [ih]
    cases encontrarSuspeito sg t c <;> cases consultarTodas sg t r <;>
      cases consultarTodas sg t l2 <;> simp

theorem contarPistasPorSuspeito_eq_filter (sg : Bool) (raiz : PistaNode) (t : TabelaHash)
    (a : CStr) :
    contarPistasPorSuspeito sg raiz t a =
      (consultarTodas sg t (textos raiz)).map
        (fun rs => ((rs.filter (fun p => decide (p.2 = some a))).length : Int)) := by
  induction raiz with
  | nulo => simp [contarPistasPorSuspeito, textos, consultarTodas]
  | no c e d ihe ihd =>
    simp only [contarPistasPorSuspeito, textos, consultarTodas_append, consultarTodas, ihe, ihd]
    cases hc : encontrarSuspeito sg t c <;> cases consultarTodas sg t (textos e) <;>
      cases consultarTodas sg t (textos d) <;> simp
    rename_i r r1 r2
    by_cases hr : r = some a
    · subst hr
      have := (apontaPara_iff (some a) a).mpr rfl
      simp [List.filter_cons, this]; ring
    · have : apontaPara r a = false := by
        rw [← Bool.not_eq_true, apontaPara_iff]; exact hr
      simp [List.filter_cons, hr, this]

theorem listarPistasPorSuspeito_eq_filter (sg : Bool) (raiz : PistaNode) (t : TabelaHash)
    (a : CStr) :
    listarPistasPorSuspeito sg raiz t a =
      (consultarTodas sg t (textos raiz)).map
        (fun rs => (rs.filter (fun p => decide (p.2 = some a))).map Prod.fst) := by
  induction raiz with
  | nulo => simp [listarPistasPorSuspeito, textos, consultarTodas]
  | no c e d ihe ihd =>
    simp only [listarPistasPorSuspeito, textos, consultarTodas_append, consultarTodas, ihe, ihd]
    cases hc : encontrarSuspeito sg t c <;> cases consultarTodas sg t (textos e) <;>
      cases consultarTodas sg t (textos d) <;> simp
    rename_i r r1 r2
    by_cases hr : r = some a
    · subst hr
      have := (apontaPara_iff (some a) a).mpr rfl
      simp [List.filter_cons, this]
    · have : apontaPara r a = false := by
        rw [← Bool.not_eq_true, apontaPara_iff]; exact hr
      simp [List.filter_cons, hr, this]

theorem consultarTodas_map_fst {sg : Bool} {t : TabelaHash} {l : List CStr}
    {rs : List (CStr × Option CStr)} (h : consultarTodas sg t l = some rs) :
    rs.map Prod.fst = l := by
  induction l generalizing rs with
  | nil => simp only [consultarTodas, Option.some.injEq] at h; simp [← h]
  | cons c r ih =>
    simp only [consultarTodas] at h
    split at h
    · exact absurd h (by simp)
    · split at h
      · exact absurd h (by simp)
      · next rs1 h1 =>
        simp only [Option.some.injEq] at h
        rw [← h, List.map_cons, ih h1]

theorem listar_isSome_of_contar {sg : Bool} {raiz : PistaNode} {t : TabelaHash} {a : CStr}
    {n : Int} (h : contarPistasPorSuspeito sg raiz t a = some n) :
    ∃ l, listarPistasPorSuspeito sg raiz t a = some l ∧ (l.length : Int) = n := by
  rw [contarPistasPorSuspeito_eq_filter] at h
  rw [listarPistasPorSuspeito_eq_filter]
  cases hq : consultarTodas sg t (textos raiz) with
  | none => rw [hq] at h; exact absurd h (by simp)
  | some rs =>
    rw [hq] at h
    simp only [Option.map_some', Option.some.injEq] at h
    exact ⟨_, rfl, by simpa using h⟩

theorem contar_nonneg {sg : Bool} {raiz : PistaNode} {t : TabelaHash} {a : CStr}
    {n : Int} (h : contarPistasPorSuspeito sg raiz t a = some n) : 0 ≤ n := by
  obtain ⟨l, -, hl⟩ := listar_isSome_of_contar h
  omega

theorem verificarSuspeitoFinal_eq {sg : Bool} {raiz : PistaNode} {t : TabelaHash}
    {entrada : List Nat} {n : Int}
    (h : contarPistasPorSuspeito sg raiz t (lerAcusado entrada) = some n) :
    ∃ pistas : List CStr,
      verificarSuspeitoFinal sg raiz t entrada = some
        (([.faseDeAcusacaoFinal, .voceDeveFazerSuaAcusacao, .suspeitosDisponiveis,
            .quemVoceAcusa, .analiseDasEvidencias, .suspeitoAcusado (lerAcusado entrada),
            .pistasQueApontamPara (lerAcusado entrada) n] ++
          (if n > 0 then Saida.pistasEncontradas :: pistas.map Saida.pistaListada else [])) ++
          blocoVeredicto n (lerAcusado entrada)) := by
  obtain ⟨l, hl, -⟩ := listar_isSome_of_contar h
  refine ⟨l, ?_⟩
  simp only [verificarSuspeitoFinal, h, hl]
  split_ifs <;> rfl

theorem consultarTodas_sem_apontar {sg : Bool} {t : TabelaHash} {a : CStr} {l : List CStr}
    (h : ∀ c ∈ l, ∃ r, encontrarSuspeito sg t c = some r ∧ r ≠ some a) :
    (consultarTodas sg t l).map
      (fun rs => ((rs.filter (fun p => decide (p.2 = some a))).length : Int)) = some 0 := by
  induction l with
  | nil => simp [consultarTodas]
  | cons c r ih =>
    obtain ⟨x, hx, hxa⟩ := h c (List.mem_cons_self c r)
    have := ih (fun y hy => h y (List.mem_cons_of_mem c hy))
    simp only [consultarTodas, hx]
    cases hq : consultarTodas sg t r with
    | none => rw [hq] at this; exact absurd this (by simp)
    | some rs =>
      rw [hq] at this
      simp only [Option.map_some', Option.some.injEq] at this ⊢
      simpa [List.filter_cons, hxa] using this

theorem consultarTodas_eq_map {sg : Bool} {t : TabelaHash} {l : List CStr}
    {f : CStr → Option CStr} (h : ∀ c ∈ l, encontrarSuspeito sg t c = some (f c)) :
    consultarTodas sg t l = some (l.map (fun c => (c, f c))) := by
  induction l with
  | nil => rfl
  | cons c r ih =>
    simp [consultarTodas, h c (List.mem_cons_self c r),
      ih (fun y hy => h y (List.mem_cons_of_mem c hy))]

theorem filter_map_consulta (f : CStr → Option CStr) (a : CStr) (l : List CStr) :
    (l.map (fun c => (c, f c))).filter (fun p => decide (p.2 = some a)) =
      (l.filter (fun c => decide (f c = some a))).map (fun c => (c, f c)) := by
  induction l with
  | nil => rfl
  | cons c r ih =>
    by_cases hc : f c = some a <;> simp [List.filter_cons, hc, ih]

/-- C8: for every clue tree built by `inserirPista` from the empty tree, every table and every
accused name `a`, the clues of the enumeration are pairwise distinct and
`contarPistasPorSuspeito` is the number of them whose `encontrarSuspeito` result is present
and equal to `a` byte for byte, the lookups being made on the same table (the count is
returned exactly when every one of these lookups is): when `encontrarSuspeito` returns `f c`
for every clue `c` of the tree, the count is the number of clues `c` of the enumeration with
`f c = some a`.  In particular it is 0 for the empty tree, and 0 when no clue of the tree is
associated with `a`. -/
theorem contarPistasPorSuspeito_conta (sg : Bool) (pistas : List CStr) (tabela : TabelaHash)
    (a : CStr) :
    (enumerar (inserirTodas .nulo pistas)).Nodup ∧
      contarPistasPorSuspeito sg (inserirTodas .nulo pistas) tabela a =
        (consultarTodas sg tabela (enumerar (inserirTodas .nulo pistas))).map
          (fun rs => ((rs.filter (fun p => decide (p.2 = some a))).length : Int)) ∧
      (∀ f : CStr → Option CStr,
        (∀ c ∈ enumerar (inserirTodas .nulo pistas), encontrarSuspeito sg tabela c = some (f c)) →
        contarPistasPorSuspeito sg (inserirTodas .nulo pistas) tabela a =
          some (((enumerar (inserirTodas .nulo pistas)).countP
            (fun c => decide (f c = some a)) : Nat) : Int)) ∧
      contarPistasPorSuspeito sg .nulo tabela a = some 0 ∧
      ((∀ c ∈ enumerar (inserirTodas .nulo pistas),
          ∃ r, encontrarSuspeito sg tabela c = some r ∧ r ≠ some a) →
        contarPistasPorSuspeito sg (inserirTodas .nulo pistas) tabela a = some 0) := by
  refine ⟨pairwise_antes_nodup (enumerar_inserirTodas_pairwise pistas), ?_, ?_, rfl, ?_⟩
  · rw [enumerar_eq_textos]
    exact contarPistasPorSuspeito_eq_filter sg _ tabela a
  · intro f hf
    rw [enumerar_eq_textos] at hf ⊢
    rw [contarPistasPorSuspeito_eq_filter, consultarTodas_eq_map hf, Option.map_some',
      filter_map_consulta, List.length_map, List.countP_eq_length_filter]
  · intro h
    rw [enumerar_eq_textos] at h
    rw [contarPistasPorSuspeito_eq_filter]
    exact consultarTodas_sem_apontar h

/-- Witness for C8: with the clues `c`, `a`, `b` collected and the table of the examples, every
lookup returns the last association inserted for the clue, and the count for `S` is the number
of clues associated with `S`, which is 2; a tree holding the one clue `a` and the empty table
give the count 0 for the name `b`. -/
theorem contarPistasPorSuspeito_conta_witness :
    (contarPistasPorSuspeito false (inserirTodas .nulo [[99], [97], [98]]) tabelaExemplo [83] =
        some (((enumerar (inserirTodas .nulo [[99], [97], [98]])).countP
          (fun c => decide (ultimaAssociacao [([97], [83]), ([98], [84]), ([99], [83])] c
            = some [83])) : Nat) : Int) ∧
      (enumerar (inserirTodas .nulo [[99], [97], [98]])).countP
          (fun c => decide (ultimaAssociacao [([97], [83]), ([98], [84]), ([99], [83])] c
            = some [83])) = 2) ∧
      (∀ c ∈ enumerar (inserirTodas .nulo [[97]]),
        ∃ r, encontrarSuspeito false criarTabelaHash c = some r ∧ r ≠ some [98]) ∧
      contarPistasPorSuspeito false (inserirTodas .nulo [[97]]) criarTabelaHash [98] = some 0 :=
  have h : ∀ c ∈ enumerar (inserirTodas .nulo [[97]]),
      ∃ r, encontrarSuspeito false criarTabelaHash c = some r ∧ r ≠ some [98] := by
    intro c hc
    have hc1 : c = [97] := by
      have : enumerar (inserirTodas .nulo [[97]]) = [[97]] := by decide
      rw [this] at hc
      simpa using hc
    subst hc1
    exact ⟨none, by decide, by decide⟩
  ⟨⟨(contarPistasPorSuspeito_conta false [[99], [97], [98]] tabelaExemplo [83]).2.2.1
      (ultimaAssociacao [([97], [83]), ([98], [84]), ([99], [83])]) (by decide), by decide⟩,
    h, (contarPistasPorSuspeito_conta false [[97]] criarTabelaHash [98]).2.2.2.2 h⟩

/-- C9: for every clue tree built by `inserirPista`, every table and every accused name `a`,
the clues printed by `listarPistasPorSuspeito` are exactly the in-order enumeration filtered by
"the lookup of the clue is present and equal to `a`" (printed exactly when every lookup is
returned): when `encontrarSuspeito` returns `f c` for every clue `c` of the tree, the clues
printed are those of the enumeration with `f c = some a`, in that order.  They are in strictly
ascending order under `strcmp`, and their number is the count of `contarPistasPorSuspeito`,
the pre-order count and the in-order listing agreeing. -/
theorem listarPistasPorSuspeito_filtra (sg : Bool) (pistas : List CStr) (tabela : TabelaHash)
    (a : CStr) :
    listarPistasPorSuspeito sg (inserirTodas .nulo pistas) tabela a =
        (consultarTodas sg tabela (enumerar (inserirTodas .nulo pistas))).map
          (fun rs => (rs.filter (fun p => decide (p.2 = some a))).map Prod.fst) ∧
      (∀ f : CStr → Option CStr,
        (∀ c ∈ enumerar (inserirTodas .nulo pistas), encontrarSuspeito sg tabela c = some (f c)) →
        listarPistasPorSuspeito sg (inserirTodas .nulo pistas) tabela a =
          some ((enumerar (inserirTodas .nulo pistas)).filter
            (fun c => decide (f c = some a)))) ∧
      (∀ l, listarPistasPorSuspeito sg (inserirTodas .nulo pistas) tabela a = some l →
        l.Pairwise (fun x y => strcmp x y < 0)) ∧
      (listarPistasPorSuspeito sg (inserirTodas .nulo pistas) tabela a).map
          (fun l => (l.length : Int)) =
        contarPistasPorSuspeito sg (inserirTodas .nulo pistas) tabela a := by
  refine ⟨?_, ?_, ?_, ?_⟩
  · rw [enumerar_eq_textos]
    exact listarPistasPorSuspeito_eq_filter sg _ tabela a
  · intro f hf
    rw [enumerar_eq_textos] at hf ⊢
    rw [listarPistasPorSuspeito_eq_filter, consultarTodas_eq_map hf, Option.map_some',
      filter_map_consulta, List.map_map]
    have hid : (Prod.fst ∘ fun c : CStr => (c, f c)) = id := rfl
    rw [hid, List.map_id]
  · intro l hl
    rw [listarPistasPorSuspeito_eq_filter] at hl
    cases hq : consultarTodas sg tabela (textos (inserirTodas .nulo pistas)) with
    | none => rw [hq] at hl; exact absurd hl (by simp)
    | some rs =>
      rw [hq] at hl
      simp only [Option.map_some', Option.some.injEq] at hl
      have hsub : l.Sublist (textos (inserirTodas .nulo pistas)) := by
        rw [← hl, ← consultarTodas_map_fst hq]
        exact (List.filter_sublist rs).map Prod.fst
      exact (textos_pairwise _ (ordenada_inserirTodas .nulo pistas trivial)).sublist hsub
  · rw [listarPistasPorSuspeito_eq_filter, contarPistasPorSuspeito_eq_filter]
    cases consultarTodas sg tabela (textos (inserirTodas .nulo pistas)) <;> simp

/-- Witness for C9: with the clues `c`, `a`, `b` collected and `a`, `c` pointing to `S`, every
lookup returns the last association inserted for the clue, and the listing for `S` is `a`,
`c`, in ascending order. -/
theorem listarPistasPorSuspeito_filtra_witness :
    listarPistasPorSuspeito false (inserirTodas .nulo [[99], [97], [98]]) tabelaExemplo [83]
        = some [[97], [99]] ∧
      listarPistasPorSuspeito false (inserirTodas .nulo [[99], [97], [98]]) tabelaExemplo [83]
        = some ((enumerar (inserirTodas .nulo [[99], [97], [98]])).filter
          (fun c => decide (ultimaAssociacao [([97], [83]), ([98], [84]), ([99], [83])] c
            = some [83]))) ∧
      List.Pairwise (fun x y => strcmp x y < 0) [[97], [99]] :=
  ⟨by decide,
    (listarPistasPorSuspeito_filtra false [[99], [97], [98]] tabelaExemplo [83]).2.1
      (ultimaAssociacao [([97], [83]), ([98], [84]), ([99], [83])]) (by decide),
    (listarPistasPorSuspeito_filtra false [[99], [97], [98]] tabelaExemplo [83]).2.2.1
      [[97], [99]] (by decide)⟩

/-- C10: verdict mapping of `verificarSuspeitoFinal`.  When the tally for the accused name is
`n`, the function prints the "case solved" block (`PARABENS`) if and only if `n ≥ 2` and the
"case unresolved" block if and only if `n < 2`, with the one-clue message for `n = 1` and the
no-clue message for `n = 0`.  The block depends on the count alone: for every count `m ≥ 0` it
is the solved block when `m ≥ 2` (so for 2 and 3), the unresolved block with the one-clue
message when `m = 1`, and the unresolved block with the no-clue message when `m = 0`. -/
theorem verificarSuspeitoFinal_veredicto (sg : Bool) (arvorePistas : PistaNode)
    (tabela : TabelaHash) (entrada : List Nat) (n : Int)
    (h : contarPistasPorSuspeito sg arvorePistas tabela (lerAcusado entrada) = some n) :
    (∃ linhas saida, verificarSuspeitoFinal sg arvorePistas tabela entrada = some saida ∧
        saida = linhas ++ blocoVeredicto n (lerAcusado entrada) ∧
        (Saida.parabens ∈ saida ↔ 2 ≤ n) ∧
        (Saida.casoNaoResolvido ∈ saida ↔ n < 2) ∧
        (Saida.apenasUmaPista ∈ saida ↔ n = 1) ∧
        (Saida.nenhumaPistaApontaPara (lerAcusado entrada) ∈ saida ↔ n = 0)) ∧
      ∀ (m : Int) (s : CStr), 0 ≤ m →
        (2 ≤ m → blocoVeredicto m s =
          [.tituloVeredicto, .parabens, .voceResolveuOCaso, .evidenciasSuficientes m,
            .presoEConfessou s, .mansaoDescansaEmPaz]) ∧
        (m = 1 → blocoVeredicto m s =
          [.tituloVeredicto, .casoNaoResolvido, .evidenciasInsuficientes, .precisaDeDuasPistas,
            .apenasUmaPista, .casoPermaneceEmAberto]) ∧
        (m = 0 → blocoVeredicto m s =
          [.tituloVeredicto, .casoNaoResolvido, .evidenciasInsuficientes, .precisaDeDuasPistas,
            .nenhumaPistaApontaPara s, .casoPermaneceEmAberto]) := by
  constructor
  · obtain ⟨pistas, hp⟩ := verificarSuspeitoFinal_eq h
    have hn := contar_nonneg h
    refine ⟨_, _, hp, rfl, ?_, ?_, ?_, ?_⟩
    · by_cases h2 : 2 ≤ n
      · simp [blocoVeredicto, h2]
      · by_cases h1 : n = 1
        · simp [blocoVeredicto, h1]
        · simp [blocoVeredicto, h2, h1]
    · by_cases h2 : 2 ≤ n
      · have : ¬ n < 2 := by omega
        simp [blocoVeredicto, h2, this]
      · have : n < 2 := by omega
        simp [blocoVeredicto, h2, this]
    · by_cases h2 : 2 ≤ n
      · have : ¬ n = 1 := by omega
        simp [blocoVeredicto, h2, this]
      · by_cases h1 : n = 1
        · simp [blocoVeredicto, h1]
        · simp [blocoVeredicto, h2, h1]
    · by_cases h2 : 2 ≤ n
      · have : ¬ n = 0 := by omega
        simp [blocoVeredicto, h2, this]
      · by_cases h1 : n = 1
        · simp [blocoVeredicto, h1]
        · have : n = 0 := by omega
          simp [blocoVeredicto, this]
  · intro m s _
    refine ⟨?_, ?_, ?_⟩
    · intro h2; simp [blocoVeredicto, h2]
    · rintro rfl; simp [blocoVeredicto]
    · rintro rfl; simp [blocoVeredicto]

/-- Witness for C10: with the clues `c`, `a`, `b` collected and the line `S` typed, the tally
is 2 and `verificarSuspeitoFinal` prints the solved block. -/
theorem verificarSuspeitoFinal_veredicto_witness :
    contarPistasPorSuspeito false (inserirTodas .nulo [[99], [97], [98]]) tabelaExemplo
        (lerAcusado [83, 10]) = some 2 ∧
      ∃ linhas saida,
        verificarSuspeitoFinal false (inserirTodas .nulo [[99], [97], [98]]) tabelaExemplo
            [83, 10] = some saida ∧
          saida = linhas ++ blocoVeredicto 2 (lerAcusado [83, 10]) ∧
          (Saida.parabens ∈ saida ↔ (2 : Int) ≤ 2) ∧
          (Saida.casoNaoResolvido ∈ saida ↔ (2 : Int) < 2) ∧
          (Saida.apenasUmaPista ∈ saida ↔ (2 : Int) = 1) ∧
          (Saida.nenhumaPistaApontaPara (lerAcusado [83, 10]) ∈ saida ↔ (2 : Int) = 0) :=
  ⟨by decide,
    (verificarSuspeitoFinal_veredicto false (inserirTodas .nulo [[99], [97], [98]])
      tabelaExemplo [83, 10] 2 (by decide)).1⟩

/-! ### The exploration of the mansion -/

theorem tratarEscolha_none_iff (sala : Sala) (escolha : Nat) :
    tratarEscolha sala escolha = none ↔ encerra escolha = true := by
  have he : 'e'.toNat = 101 := by decide
  have hE : 'E'.toNat = 69 := by decide
  have hd : 'd'.toNat = 100 := by decide
  have hD : 'D'.toNat = 68 := by decide
  have hs : 's'.toNat = 115 := by decide
  have hS : 'S'.toNat = 83 := by decide
  simp only [tratarEscolha, encerra, he, hE, hd, hD, hs, hS, decide_eq_true_eq]
  split_ifs <;> simp <;> omega

theorem tratarEscolha_proxima {sala proxima : Sala} {escolha : Nat} {aviso : Linha}
    (h : tratarEscolha sala escolha = some (proxima, aviso)) :
    proxima = sala ∨ (proxima ≠ .nulo ∧ (proxima = sala.esquerda ∨ proxima = sala.direita)) := by
  unfold tratarEscolha at h
  split_ifs at h with h1 h2 h3 h4 h5 <;> simp only [Option.some.injEq, Prod.mk.injEq] at h
  · exact Or.inr ⟨h.1 ▸ h2, Or.inl h.1.symm⟩
  · exact Or.inl h.1.symm
  · exact Or.inr ⟨h.1 ▸ h4, Or.inr h.1.symm⟩
  · exact Or.inl h.1.symm
  · exact Or.inl h.1.symm

theorem tratarEscolha_ne_nulo {sala proxima : Sala} {escolha : Nat} {aviso : Linha}
    (hs : sala ≠ .nulo) (h : tratarEscolha sala escolha = some (proxima, aviso)) :
    proxima ≠ .nulo := by
  rcases tratarEscolha_proxima h with rfl | ⟨h1, -⟩
  · exact hs
  · exact h1

theorem entrarNaSala_arvore {sg : Bool} {sala : Sala} {a a1 : PistaNode} {t : TabelaHash}
    {linhas : List Linha} (h : entrarNaSala sg sala a t = some (a1, linhas)) :
    a1 = inserirTodas a (pistasDasSalas [sala]) := by
  simp only [entrarNaSala] at h
  split_ifs at h with hp
  · split at h
    · exact absurd h (by simp)
    · simp only [Option.some.injEq, Prod.mk.injEq] at h
      simp [pistasDasSalas, hp, inserirTodas, ← h.1]
  · simp only [Option.some.injEq, Prod.mk.injEq] at h
    simp [pistasDasSalas, hp, inserirTodas, ← h.1]

theorem pistasDasSalas_cons (sala : Sala) (salas : List Sala) :
    pistasDasSalas (sala :: salas) = pistasDasSalas [sala] ++ pistasDasSalas salas := by
  simp only [pistasDasSalas, List.map_cons, List.map_nil, List.filter_cons, List.filter_nil]
  split_ifs <;> simp

theorem inserirTodas_append (a : PistaNode) (l1 l2 : List CStr) :
    inserirTodas a (l1 ++ l2) = inserirTodas (inserirTodas a l1) l2 := by
  simp [inserirTodas]

theorem explorarSalas_nil (sg : Bool) {sala : Sala} (hs : sala ≠ .nulo) (a : PistaNode)
    (t : TabelaHash) (en : List Nat) :
    explorarSalas sg sala a t [] en =
      (entrarNaSala sg sala a t).map (fun x => ⟨sala, x.1, x.2, .aguardandoEscolha⟩) := by
  cases sala with
  | nulo => exact absurd rfl hs
  | no n p e d =>
    simp only [explorarSalas]
    cases entrarNaSala sg (.no n p e d) a t <;> rfl

theorem explorarSalas_cons (sg : Bool) {sala : Sala} (hs : sala ≠ .nulo) (a : PistaNode)
    (t : TabelaHash) (c : Nat) (r en : List Nat) :
    explorarSalas sg sala a t (c :: r) en =
      (entrarNaSala sg sala a t).bind (fun x =>
        match tratarEscolha sala c with
        | some (proxima, aviso) =>
          (explorarSalas sg proxima x.1 t r en).map
            (fun q => ⟨q.salaAtual, q.arvorePistas, x.2 ++ aviso :: q.saida, q.situacao⟩)
        | none =>
          (encerrarInvestigacao sg x.1 t en).map
            (fun rel => ⟨sala, x.1, x.2 ++ rel, .encerrada⟩)) := by
  cases sala with
  | nulo => exact absurd rfl hs
  | no n p e d =>
    simp only [explorarSalas]
    cases entrarNaSala sg (.no n p e d) a t with
    | none => rfl
    | some x =>
      obtain ⟨a1, l⟩ := x
      simp only [Option.some_bind]
      cases tratarEscolha (.no n p e d) c with
      | none =>
        simp only
        cases encerrarInvestigacao sg a1 t en <;> rfl
      | some y =>
        obtain ⟨px, av⟩ := y
        simp only
        cases explorarSalas sg px a1 t r en <;> rfl

theorem explorarSalas_nulo (sg : Bool) (a : PistaNode) (t : TabelaHash) (es en : List Nat) :
    explorarSalas sg .nulo a t es en = some ⟨.nulo, a, [], .semSala⟩ := by
  simp [explorarSalas]

theorem salasEntradas_nil {sala : Sala} (hs : sala ≠ .nulo) : salasEntradas sala [] = [sala] := by
  cases sala with
  | nulo => exact absurd rfl hs
  | no n p e d => rfl

theorem salasEntradas_cons {sala : Sala} (hs : sala ≠ .nulo) (c : Nat) (r : List Nat) :
    salasEntradas sala (c :: r) =
      sala :: match tratarEscolha sala c with
        | some (proxima, _) => salasEntradas proxima r
        | none => [] := by
  cases sala with
  | nulo => exact absurd rfl hs
  | no n p e d => rfl

theorem salaApos_nulo (es : List Nat) : salaApos .nulo es = .nulo := by
  induction es with
  | nil => rfl
  | cons c r ih =>
    simp only [salaApos]
    cases hc : tratarEscolha .nulo c with
    | none => rfl
    | some y =>
      obtain ⟨px, av⟩ := y
      rcases tratarEscolha_proxima hc with h | ⟨h1, h2⟩
      · simp only [h]; exact ih
      · exact absurd (by rcases h2 with h | h <;> simpa [Sala.esquerda, Sala.direita] using h) h1

/-- The state of a run of `explorarSalas`: the room is the one the choices lead to, the clue
tree is the tree it was called with after the insertion of the non-empty clues of the rooms
entered, and the session is over exactly when `s` or `S` was among the choices. -/
theorem explorarSalas_estado {sg : Bool} {t : TabelaHash} {en : List Nat} (es : List Nat) :
    ∀ {sala : Sala} {a : PistaNode} {r : Exploracao},
      explorarSalas sg sala a t es en = some r →
      r.salaAtual = salaApos sala es ∧
        r.arvorePistas = inserirTodas a (pistasDasSalas (salasEntradas sala es)) ∧
        r.situacao = (if sala = .nulo then .semSala
          else if es.any encerra then .encerrada else .aguardandoEscolha) := by
  induction es with
  | nil =>
    intro sala a r h
    by_cases hs : sala = .nulo
    · subst hs
      rw [explorarSalas_nulo] at h
      simp only [Option.some.injEq] at h
      subst h
      simp [salaApos, salasEntradas, pistasDasSalas, inserirTodas]
    · rw [explorarSalas_nil sg hs] at h
      cases hx : entrarNaSala sg sala a t with
      | none => rw [hx] at h; exact absurd h (by simp)
      | some x =>
        rw [hx] at h
        simp only [Option.map_some', Option.some.injEq] at h
        subst h
        obtain ⟨a1, l⟩ := x
        simp [salaApos, salasEntradas_nil hs, hs, entrarNaSala_arvore hx]
  | cons c rest ih =>
    intro sala a r h
    by_cases hs : sala = .nulo
    · subst hs
      rw [explorarSalas_nulo] at h
      simp only [Option.some.injEq] at h
      subst h
      simp [salaApos_nulo, salasEntradas, pistasDasSalas, inserirTodas]
    · rw [explorarSalas_cons sg hs] at h
      cases hx : entrarNaSala sg sala a t with
      | none => rw [hx] at h; exact absurd h (by simp)
      | some x =>
        obtain ⟨a1, l⟩ := x
        rw [hx] at h
        simp only [Option.some_bind] at h
        have ha1 := entrarNaSala_arvore hx
        cases hc : tratarEscolha sala c with
        | none =>
          rw [hc] at h
          simp only at h
          cases hq : encerrarInvestigacao sg a1 t en with
          | none => rw [hq] at h; exact absurd h (by simp)
          | some rel =>
            rw [hq] at h
            simp only [Option.map_some', Option.some.injEq] at h
            subst h
            have hen := (tratarEscolha_none_iff sala c).mp hc
            simp [salaApos, hc, salasEntradas_cons hs, hs, hen, ha1]
        | some y =>
          obtain ⟨px, av⟩ := y
          rw [hc] at h
          simp only at h
          cases hq : explorarSalas sg px a1 t rest en with
          | none => rw [hq] at h; exact absurd h (by simp)
          | some q =>
            rw [hq] at h
            simp only [Option.map_some', Option.some.injEq] at h
            subst h
            obtain ⟨h1, h2, h3⟩ := ih hq
            have hpx := tratarEscolha_ne_nulo hs hc
            have hen : encerra c = false := by
              rw [← Bool.not_eq_true, ← tratarEscolha_none_iff sala c, hc]; simp
            refine ⟨?_, ?_, ?_⟩
            · simp [salaApos, hc, h1]
            · simp only [h2, salasEntradas_cons hs, hc]
              rw [pistasDasSalas_cons, inserirTodas_append, ← ha1]
            · simp [h3, hpx, hs, hen]

theorem entrarNaSala_de_novo {sg : Bool} {sala : Sala} {a a1 : PistaNode} {t : TabelaHash}
    {linhas : List Linha} (h : entrarNaSala sg sala a t = some (a1, linhas)) :
    entrarNaSala sg sala a1 t = some (a1, linhas) := by
  simp only [entrarNaSala] at h ⊢
  split_ifs at h ⊢ with hp
  · cases hq : encontrarSuspeito sg t sala.pista with
    | none => rw [hq] at h; exact absurd h (by simp)
    | some x =>
      rw [hq] at h
      simp only [Option.some.injEq, Prod.mk.injEq] at h ⊢
      refine ⟨?_, h.2⟩
      rw [← h.1, inserirPista_idem]
  · simp only [Option.some.injEq, Prod.mk.injEq] at h
    rw [h.2]

/-- A run that is waiting at the prompt goes on, with the next choice, as the `switch` says
from the room and the clue tree it has reached. -/
theorem explorarSalas_append {sg : Bool} {t : TabelaHash} {en : List Nat} (es : List Nat) :
    ∀ {sala : Sala} {a : PistaNode} {r : Exploracao},
      explorarSalas sg sala a t es en = some r → r.situacao = .aguardandoEscolha →
      ∀ (c : Nat) (resto : List Nat),
        explorarSalas sg sala a t (es ++ c :: resto) en =
          match tratarEscolha r.salaAtual c with
          | some (proxima, aviso) =>
            (explorarSalas sg proxima r.arvorePistas t resto en).map
              (fun q => ⟨q.salaAtual, q.arvorePistas, r.saida ++ aviso :: q.saida, q.situacao⟩)
          | none =>
            (encerrarInvestigacao sg r.arvorePistas t en).map
              (fun rel => ⟨r.salaAtual, r.arvorePistas, r.saida ++ rel, .encerrada⟩) := by
  induction es with
  | nil =>
    intro sala a r h hsit c resto
    have hs : sala ≠ .nulo := by
      rintro rfl
      rw [explorarSalas_nulo] at h
      simp only [Option.some.injEq] at h
      subst h
      exact absurd hsit (by simp)
    rw [explorarSalas_nil sg hs] at h
    cases hx : entrarNaSala sg sala a t with
    | none => rw [hx] at h; exact absurd h (by simp)
    | some x =>
      rw [hx] at h
      simp only [Option.map_some', Option.some.injEq] at h
      subst h
      simp only [List.nil_append]
      rw [explorarSalas_cons sg hs, hx]
      rfl
  | cons c0 rest ih =>
    intro sala a r h hsit c resto
    have hs : sala ≠ .nulo := by
      rintro rfl
      rw [explorarSalas_nulo] at h
      simp only [Option.some.injEq] at h
      subst h
      exact absurd hsit (by simp)
    rw [explorarSalas_cons sg hs] at h
    simp only [List.cons_append]
    rw [explorarSalas_cons sg hs]
    cases hx : entrarNaSala sg sala a t with
    | none => rw [hx] at h; exact absurd h (by simp)
    | some x =>
      obtain ⟨a1, l⟩ := x
      rw [hx] at h
      simp only [Option.some_bind] at h ⊢
      cases hc : tratarEscolha sala c0 with
      | none =>
        rw [hc] at h
        simp only at h
        cases hq : encerrarInvestigacao sg a1 t en with
        | none => rw [hq] at h; exact absurd h (by simp)
        | some rel =>
          rw [hq] at h
          simp only [Option.map_some', Option.some.injEq] at h
          subst h
          exact absurd hsit (by simp)
      | some y =>
        obtain ⟨px, av⟩ := y
        rw [hc] at h
        simp only at h ⊢
        cases hq : explorarSalas sg px a1 t rest en with
        | none => rw [hq] at h; exact absurd h (by simp)
        | some q =>
          rw [hq] at h
          simp only [Option.map_some', Option.some.injEq] at h
          subst h
          simp only at hsit ⊢
          rw [ih hq hsit c resto]
          cases tratarEscolha q.salaAtual c with
          | none =>
            simp only
            cases encerrarInvestigacao sg q.arvorePistas t en <;> simp
          | some z =>
            obtain ⟨pz, az⟩ := z
            simp only
            cases explorarSalas sg pz q.arvorePistas t resto en <;> simp

/-- A run that is waiting at the prompt has already looked up the clue of its room: entering
the room again changes nothing in the clue tree. -/
theorem explorarSalas_reentra {sg : Bool} {t : TabelaHash} {en : List Nat} (es : List Nat) :
    ∀ {sala : Sala} {a : PistaNode} {r : Exploracao},
      explorarSalas sg sala a t es en = some r → r.situacao = .aguardandoEscolha →
      ∃ linhas, entrarNaSala sg r.salaAtual r.arvorePistas t = some (r.arvorePistas, linhas) ∧
        r.salaAtual ≠ .nulo := by
  induction es with
  | nil =>
    intro sala a r h hsit
    have hs : sala ≠ .nulo := by
      rintro rfl
      rw [explorarSalas_nulo] at h
      simp only [Option.some.injEq] at h
      subst h
      exact absurd hsit (by simp)
    rw [explorarSalas_nil sg hs] at h
    cases hx : entrarNaSala sg sala a t with
    | none => rw [hx] at h; exact absurd h (by simp)
    | some x =>
      rw [hx] at h
      simp only [Option.map_some', Option.some.injEq] at h
      subst h
      exact ⟨x.2, entrarNaSala_de_novo hx, hs⟩
  | cons c0 rest ih =>
    intro sala a r h hsit
    have hs : sala ≠ .nulo := by
      rintro rfl
      rw [explorarSalas_nulo] at h
      simp only [Option.some.injEq] at h
      subst h
      exact absurd hsit (by simp)
    rw [explorarSalas_cons sg hs] at h
    cases hx : entrarNaSala sg sala a t with
    | none => rw [hx] at h; exact absurd h (by simp)
    | some x =>
      obtain ⟨a1, l⟩ := x
      rw [hx] at h
      simp only [Option.some_bind] at h
      cases hc : tratarEscolha sala c0 with
      | none =>
        rw [hc] at h
        simp only at h
        cases hq : encerrarInvestigacao sg a1 t en with
        | none => rw [hq] at h; exact absurd h (by simp)
        | some rel =>
          rw [hq] at h
          simp only [Option.map_some', Option.some.injEq] at h
          subst h
          exact absurd hsit (by simp)
      | some y =>
        obtain ⟨px, av⟩ := y
        rw [hc] at h
        simp only at h
        cases hq : explorarSalas sg px a1 t rest en with
        | none => rw [hq] at h; exact absurd h (by simp)
        | some q =>
          rw [hq] at h
          simp only [Option.map_some', Option.some.injEq] at h
          subst h
          exact @ih _ _ q hq hsit

theorem map_estado_prefixo (o : Option Exploracao) (f : Exploracao → List Linha) :
    (o.map (fun q => (⟨q.salaAtual, q.arvorePistas, f q, q.situacao⟩ : Exploracao))).map
        Exploracao.estado = o.map Exploracao.estado := by
  cases o <;> rfl

/-- From a state waiting at the prompt, the choices that follow lead to the same room, clue
tree and situation as a fresh call of `explorarSalas` with that room and that clue tree. -/
theorem explorarSalas_continua {sg : Bool} {t : TabelaHash} {en : List Nat} {es : List Nat}
    {sala : Sala} {a : PistaNode} {r : Exploracao}
    (h : explorarSalas sg sala a t es en = some r) (hsit : r.situacao = .aguardandoEscolha)
    (resto : List Nat) :
    (explorarSalas sg sala a t (es ++ resto) en).map Exploracao.estado =
      (explorarSalas sg r.salaAtual r.arvorePistas t resto en).map Exploracao.estado := by
  obtain ⟨linhas, hre, hne⟩ := explorarSalas_reentra es h hsit
  cases resto with
  | nil =>
    rw [List.append_nil, h, explorarSalas_nil sg hne, hre]
    simp [Exploracao.estado, hsit]
  | cons c rs =>
    rw [explorarSalas_append es h hsit c rs, explorarSalas_cons sg hne, hre]
    simp only [Option.some_bind]
    cases tratarEscolha r.salaAtual c with
    | none =>
      simp only
      cases encerrarInvestigacao sg r.arvorePistas t en <;> rfl
    | some y =>
      obtain ⟨px, av⟩ := y
      simp only
      rw [map_estado_prefixo, map_estado_prefixo]

/-- A choice that the `switch` answers by staying in the room leaves the state as it is: the
run is again waiting at the prompt in the same room with the same clue tree, and the choices
that follow lead where they would have led without it. -/
theorem explorarSalas_fica {sg : Bool} {t : TabelaHash} {en : List Nat} {es : List Nat}
    {sala : Sala} {a : PistaNode} {r : Exploracao} {c : Nat} {aviso : Linha}
    (h : explorarSalas sg sala a t es en = some r) (hsit : r.situacao = .aguardandoEscolha)
    (hc : tratarEscolha r.salaAtual c = some (r.salaAtual, aviso)) :
    (∃ linhas, explorarSalas sg sala a t (es ++ [c]) en =
        some ⟨r.salaAtual, r.arvorePistas, r.saida ++ aviso :: linhas, .aguardandoEscolha⟩) ∧
      ∀ resto : List Nat,
        (explorarSalas sg sala a t (es ++ c :: resto) en).map Exploracao.estado =
          (explorarSalas sg sala a t (es ++ resto) en).map Exploracao.estado := by
  obtain ⟨linhas, hre, hne⟩ := explorarSalas_reentra es h hsit
  constructor
  · refine ⟨linhas, ?_⟩
    rw [explorarSalas_append es h hsit c [], hc]
    simp only
    rw [explorarSalas_nil sg hne, hre]
    rfl
  · intro resto
    rw [explorarSalas_append es h hsit c resto, hc]
    simp only
    rw [map_estado_prefixo, explorarSalas_continua h hsit resto]

theorem tratarEscolha_sem_saida {sala : Sala} {c : Nat}
    (hc : ((c = 'e'.toNat ∨ c = 'E'.toNat) ∧ sala.esquerda = .nulo) ∨
      ((c = 'd'.toNat ∨ c = 'D'.toNat) ∧ sala.direita = .nulo)) :
    ∃ aviso, (aviso = Linha.semCaminhoEsquerda ∨ aviso = Linha.semCaminhoDireita) ∧
      tratarEscolha sala c = some (sala, aviso) := by
  have he : 'e'.toNat = 101 := by decide
  have hE : 'E'.toNat = 69 := by decide
  have hd : 'd'.toNat = 100 := by decide
  have hD : 'D'.toNat = 68 := by decide
  simp only [he, hE, hd, hD] at hc
  simp only [tratarEscolha, he, hE, hd, hD]
  rcases hc with ⟨h1, h2⟩ | ⟨h1, h2⟩
  · exact ⟨.semCaminhoEsquerda, Or.inl rfl, by simp [h1, h2]⟩
  · have h3 : ¬ (c = 101 ∨ c = 69) := by omega
    exact ⟨.semCaminhoDireita, Or.inr rfl, by simp [h1, h2, h3]⟩

theorem tratarEscolha_invalida {sala : Sala} {c : Nat}
    (hc : c ≠ 'e'.toNat ∧ c ≠ 'E'.toNat ∧ c ≠ 'd'.toNat ∧ c ≠ 'D'.toNat ∧ c ≠ 's'.toNat ∧
      c ≠ 'S'.toNat) :
    tratarEscolha sala c = some (sala, .opcaoInvalida) := by
  have he : 'e'.toNat = 101 := by decide
  have hE : 'E'.toNat = 69 := by decide
  have hd : 'd'.toNat = 100 := by decide
  have hD : 'D'.toNat = 68 := by decide
  have hs : 's'.toNat = 115 := by decide
  have hS : 'S'.toNat = 83 := by decide
  simp only [he, hE, hd, hD, hs, hS] at hc
  obtain ⟨h1, h2, h3, h4, h5, h6⟩ := hc
  simp [tratarEscolha, h1, h2, h3, h4, h5, h6]

/-- C11: for every state (room, clue set) that `explorarSalas` reaches waiting at the prompt,
and every direction choice without a room behind it (`e`/`E` with no room to the left,
`d`/`D` with no room to the right), handling the choice leaves the state unchanged: after the
loop has entered the room again and processed its clue again, the run waits at the prompt in
the same room with the same clue tree, hence the same enumerated clue set, having printed the
"no way" notice; and the choices that follow lead to the same room, clue tree and situation
as they would have without it. -/
theorem direcao_sem_saida_nao_muda_estado (sg : Bool) (salaInicial : Sala)
    (arvoreInicial : PistaNode) (tabela : TabelaHash) (escolhas entrada : List Nat)
    (r : Exploracao) (escolha : Nat)
    (h : explorarSalas sg salaInicial arvoreInicial tabela escolhas entrada = some r)
    (hsit : r.situacao = .aguardandoEscolha)
    (hc : ((escolha = 'e'.toNat ∨ escolha = 'E'.toNat) ∧ r.salaAtual.esquerda = .nulo) ∨
      ((escolha = 'd'.toNat ∨ escolha = 'D'.toNat) ∧ r.salaAtual.direita = .nulo)) :
    (∃ r1, explorarSalas sg salaInicial arvoreInicial tabela (escolhas ++ [escolha]) entrada
          = some r1 ∧
        r1.salaAtual = r.salaAtual ∧ r1.arvorePistas = r.arvorePistas ∧
        enumerar r1.arvorePistas = enumerar r.arvorePistas ∧
        r1.situacao = .aguardandoEscolha ∧
        ∃ aviso linhas, (aviso = Linha.semCaminhoEsquerda ∨ aviso = Linha.semCaminhoDireita) ∧
          r1.saida = r.saida ++ aviso :: linhas) ∧
      ∀ resto : List Nat,
        (explorarSalas sg salaInicial arvoreInicial tabela (escolhas ++ escolha :: resto)
            entrada).map Exploracao.estado =
          (explorarSalas sg salaInicial arvoreInicial tabela (escolhas ++ resto)
            entrada).map Exploracao.estado := by
  obtain ⟨aviso, hav, htr⟩ := tratarEscolha_sem_saida hc
  obtain ⟨⟨linhas, h1⟩, h2⟩ := explorarSalas_fica h hsit htr
  exact ⟨⟨_, h1, rfl, rfl, rfl, rfl, aviso, linhas, hav, rfl⟩, h2⟩

/-- Witness for C11: in a room without exits that holds the clue `a`, the choice `e` leaves
the run waiting in the same room with the same clue tree. -/
theorem direcao_sem_saida_nao_muda_estado_witness :
    ∃ r1, explorarSalas false (criarSala [88] [97]) .nulo tabelaExemplo ([] ++ [101]) [] = some r1 ∧
      r1.salaAtual = criarSala [88] [97] ∧ r1.arvorePistas = inserirPista .nulo [97] ∧
      r1.situacao = .aguardandoEscolha :=
  have h := (direcao_sem_saida_nao_muda_estado false (criarSala [88] [97]) .nulo tabelaExemplo
    [] [] ⟨criarSala [88] [97], inserirPista .nulo [97],
      linhasDaSala (criarSala [88] [97]) (some (some [83])), .aguardandoEscolha⟩ 101
    (by decide) (by decide) (by decide)).1
  h.elim fun r1 h1 => ⟨r1, h1.1, h1.2.1, h1.2.2.1, h1.2.2.2.2.1⟩

/-- C12: for every state (room, clue set) that `explorarSalas` reaches waiting at the prompt,
and every choice other than `e`, `E`, `d`, `D`, `s`, `S`, handling the choice does not end the
session and leaves the state unchanged: after the loop has entered the room again and
inserted its clue again, the run waits at the prompt in the same room with the same clue tree,
hence the same enumerated clue set, having printed the "invalid option" notice; and the
choices that follow lead where they would have led without it. -/
theorem escolha_invalida_nao_muda_estado (sg : Bool) (salaInicial : Sala)
    (arvoreInicial : PistaNode) (tabela : TabelaHash) (escolhas entrada : List Nat)
    (r : Exploracao) (escolha : Nat)
    (h : explorarSalas sg salaInicial arvoreInicial tabela escolhas entrada = some r)
    (hsit : r.situacao = .aguardandoEscolha)
    (hc : escolha ≠ 'e'.toNat ∧ escolha ≠ 'E'.toNat ∧ escolha ≠ 'd'.toNat ∧
      escolha ≠ 'D'.toNat ∧ escolha ≠ 's'.toNat ∧ escolha ≠ 'S'.toNat) :
    (∃ r1, explorarSalas sg salaInicial arvoreInicial tabela (escolhas ++ [escolha]) entrada
          = some r1 ∧
        r1.salaAtual = r.salaAtual ∧ r1.arvorePistas = r.arvorePistas ∧
        enumerar r1.arvorePistas = enumerar r.arvorePistas ∧
        r1.situacao = .aguardandoEscolha ∧
        ∃ linhas, r1.saida = r.saida ++ Linha.opcaoInvalida :: linhas) ∧
      ∀ resto : List Nat,
        (explorarSalas sg salaInicial arvoreInicial tabela (escolhas ++ escolha :: resto)
            entrada).map Exploracao.estado =
          (explorarSalas sg salaInicial arvoreInicial tabela (escolhas ++ resto)
            entrada).map Exploracao.estado := by
  obtain ⟨⟨linhas, h1⟩, h2⟩ := explorarSalas_fica h hsit (tratarEscolha_invalida hc)
  exact ⟨⟨_, h1, rfl, rfl, rfl, rfl, linhas, rfl⟩, h2⟩

/-- Witness for C12: in a room that holds the clue `a`, the choice `x` leaves the run waiting
in the same room with the same clue tree. -/
theorem escolha_invalida_nao_muda_estado_witness :
    ∃ r1, explorarSalas false (criarSala [88] [97]) .nulo tabelaExemplo ([] ++ [120]) [] = some r1 ∧
      r1.salaAtual = criarSala [88] [97] ∧ r1.arvorePistas = inserirPista .nulo [97] ∧
      r1.situacao = .aguardandoEscolha :=
  have h := (escolha_invalida_nao_muda_estado false (criarSala [88] [97]) .nulo tabelaExemplo
    [] [] ⟨criarSala [88] [97], inserirPista .nulo [97],
      linhasDaSala (criarSala [88] [97]) (some (some [83])), .aguardandoEscolha⟩ 120
    (by decide) (by decide) (by decide)).1
  h.elim fun r1 h1 => ⟨r1, h1.1, h1.2.1, h1.2.2.1, h1.2.2.2.2.1⟩

set_option maxRecDepth 1000000 in
/-- C13: scenario A on the mansion and the suspect table of `main`.  From `Hall de Entrada`
the choices `e`, `e`, `s` followed by the line `Sr. Williams` end the session in `Escritorio`
with the clue set "Carta de ameaca parcialmente queimada", "Livro sobre venenos deixado aberto
na mesa", "Uma pegada estranha na entrada principal"; `contarPistasPorSuspeito` for
`Sr. Williams` is 1, the report prints that count, and the verdict printed is "case
unresolved" with the one-clue message, not "case solved". -/
theorem cenario_A (sg : Bool) :
    (main sg ['e'.toNat, 'e'.toNat, 's'.toNat] (ascii "Sr. Williams\n")).map
        (fun r => (r.situacao, r.salaAtual.nome, enumerar r.arvorePistas)) =
      some (.encerrada, ascii "Escritorio",
        [ascii "Carta de ameaca parcialmente queimada",
          ascii "Livro sobre venenos deixado aberto na mesa",
          ascii "Uma pegada estranha na entrada principal"]) ∧
    (main sg ['e'.toNat, 'e'.toNat, 's'.toNat] (ascii "Sr. Williams\n")).bind
        (fun r => (inicializarSuspeitos sg criarTabelaHash).bind
          (fun tabela => contarPistasPorSuspeito sg r.arvorePistas tabela (ascii "Sr. Williams")))
      = some 1 ∧
    (main sg ['e'.toNat, 'e'.toNat, 's'.toNat] (ascii "Sr. Williams\n")).map
        (fun r =>
          (decide (Linha.julgamento (.pistasQueApontamPara (ascii "Sr. Williams") 1) ∈ r.saida),
            decide (Linha.julgamento .casoNaoResolvido ∈ r.saida),
            decide (Linha.julgamento .apenasUmaPista ∈ r.saida),
            decide (Linha.julgamento .parabens ∈ r.saida))) =
      some (true, true, true, false) := by
  cases sg <;> decide

set_option maxRecDepth 1000000 in
/-- C14: scenario B on the mansion and the suspect table of `main`.  From `Hall de Entrada`
the choices `d`, `d`, `s` followed by the line `Sr. Williams` end the session in `Jardim` with
exactly the three clues "Cinzas ainda quentes na lareira", "Flores venenosas recentemente
colhidas", "Uma pegada estranha na entrada principal"; `contarPistasPorSuspeito` for
`Sr. Williams` is 2, the two clues listed for him are the "Cinzas" clue and the entry clue,
and the verdict printed is "case solved". -/
theorem cenario_B (sg : Bool) :
    (main sg ['d'.toNat, 'd'.toNat, 's'.toNat] (ascii "Sr. Williams\n")).map
        (fun r => (r.situacao, r.salaAtual.nome, enumerar r.arvorePistas)) =
      some (.encerrada, ascii "Jardim",
        [ascii "Cinzas ainda quentes na lareira",
          ascii "Flores venenosas recentemente colhidas",
          ascii "Uma pegada estranha na entrada principal"]) ∧
    (main sg ['d'.toNat, 'd'.toNat, 's'.toNat] (ascii "Sr. Williams\n")).bind
        (fun r => (inicializarSuspeitos sg criarTabelaHash).bind
          (fun tabela => contarPistasPorSuspeito sg r.arvorePistas tabela (ascii "Sr. Williams")))
      = some 2 ∧
    (main sg ['d'.toNat, 'd'.toNat, 's'.toNat] (ascii "Sr. Williams\n")).bind
        (fun r => (inicializarSuspeitos sg criarTabelaHash).bind
          (fun tabela => listarPistasPorSuspeito sg r.arvorePistas tabela (ascii "Sr. Williams")))
      = some [ascii "Cinzas ainda quentes na lareira",
          ascii "Uma pegada estranha na entrada principal"] ∧
    (main sg ['d'.toNat, 'd'.toNat, 's'.toNat] (ascii "Sr. Williams\n")).map
        (fun r =>
          (decide (Linha.julgamento (.pistasQueApontamPara (ascii "Sr. Williams") 2) ∈ r.saida),
            decide (Linha.julgamento .parabens ∈ r.saida),
            decide (Linha.julgamento .casoNaoResolvido ∈ r.saida))) =
      some (true, true, false) := by
  cases sg <;> decide

theorem entrarNaSala_consulta {sg : Bool} {sala : Sala} {a : PistaNode} {t : TabelaHash}
    {x : PistaNode × List Linha} (h : entrarNaSala sg sala a t = some x) :
    ∀ c ∈ pistasDasSalas [sala], ∃ q, encontrarSuspeito sg t c = some q := by
  intro c hc
  simp only [pistasDasSalas, List.map_cons, List.map_nil, List.mem_filter, List.mem_singleton,
    decide_eq_true_eq] at hc
  obtain ⟨rfl, hp⟩ := hc
  simp only [entrarNaSala, hp, if_true] at h
  cases hq : encontrarSuspeito sg t sala.pista with
  | none => rw [hq] at h; exact absurd h (by simp)
  | some q => exact ⟨q, rfl⟩

/-- A run of `explorarSalas` has looked up the clue of every room it entered. -/
theorem explorarSalas_consultas {sg : Bool} {t : TabelaHash} {en : List Nat} (es : List Nat) :
    ∀ {sala : Sala} {a : PistaNode} {r : Exploracao},
      explorarSalas sg sala a t es en = some r →
      ∀ c ∈ pistasDasSalas (salasEntradas sala es), ∃ q, encontrarSuspeito sg t c = some q := by
  induction es with
  | nil =>
    intro sala a r h c hc
    by_cases hs : sala = .nulo
    · subst hs; simp [salasEntradas, pistasDasSalas] at hc
    · rw [explorarSalas_nil sg hs] at h
      cases hx : entrarNaSala sg sala a t with
      | none => rw [hx] at h; exact absurd h (by simp)
      | some x =>
        rw [salasEntradas_nil hs] at hc
        exact entrarNaSala_consulta hx c hc
  | cons c0 rest ih =>
    intro sala a r h c hc
    by_cases hs : sala = .nulo
    · subst hs; simp [salasEntradas, pistasDasSalas] at hc
    · rw [explorarSalas_cons sg hs] at h
      cases hx : entrarNaSala sg sala a t with
      | none => rw [hx] at h; exact absurd h (by simp)
      | some x =>
        rw [hx] at h
        simp only [Option.some_bind] at h
        rw [salasEntradas_cons hs, pistasDasSalas_cons, List.mem_append] at hc
        rcases hc with hc | hc
        · exact entrarNaSala_consulta hx c hc
        · cases hc0 : tratarEscolha sala c0 with
          | none => rw [hc0] at hc; simp [pistasDasSalas] at hc
          | some y =>
            obtain ⟨px, av⟩ := y
            rw [hc0] at h hc
            simp only at h hc
            cases hq : explorarSalas sg px x.1 t rest en with
            | none => rw [hq] at h; exact absurd h (by simp)
            | some q => exact ih hq c hc

theorem verificarSuspeitoFinal_definida {sg : Bool} {arvore : PistaNode} {t : TabelaHash}
    (en : List Nat) (h : ∀ c ∈ textos arvore, ∃ q, encontrarSuspeito sg t c = some q) :
    ∃ acusacao, verificarSuspeitoFinal sg arvore t en = some acusacao := by
  have hf : ∀ c ∈ textos arvore,
      encontrarSuspeito sg t c = some ((encontrarSuspeito sg t c).getD none) := by
    intro c hc
    obtain ⟨q, hq⟩ := h c hc
    simp [hq]
  have hcont : ∃ n, contarPistasPorSuspeito sg arvore t (lerAcusado en) = some n := by
    rw [contarPistasPorSuspeito_eq_filter, consultarTodas_eq_map hf]
    exact ⟨_, rfl⟩
  obtain ⟨n, hn⟩ := hcont
  obtain ⟨pistas, hp⟩ := verificarSuspeitoFinal_eq hn
  exact ⟨_, hp⟩

theorem inserirPista_ne_nulo (a : PistaNode) (x : CStr) : inserirPista a x ≠ .nulo := by
  cases a with
  | nulo => simp [inserirPista, criarPistaNode]
  | no c e d =>
    simp only [inserirPista]
    split_ifs <;> simp

theorem inserirTodas_eq_nulo (a : PistaNode) (l : List CStr) :
    inserirTodas a l = .nulo ↔ a = .nulo ∧ l = [] := by
  induction l generalizing a with
  | nil => simp [inserirTodas]
  | cons x r ih =>
    have := ih (inserirPista a x)
    simp only [inserirTodas, List.foldl_cons] at this ⊢
    rw [this]
    simp [inserirPista_ne_nulo]

theorem tratarEscolha_encerra {sala : Sala} {c : Nat} (hc : c = 's'.toNat ∨ c = 'S'.toNat) :
    tratarEscolha sala c = none := by
  rw [tratarEscolha_none_iff]
  simp only [encerra, decide_eq_true_eq]
  exact hc

/-- C15: for every mansion, every start and every list of choices after which `explorarSalas`
waits at the prompt, handling `s` or `S` ends the session in the room reached.  With an empty
clue set (which, for a run started with the empty tree, means that no room entered had a
non-empty clue) the accusation is skipped: only the report title and the explanatory message
are printed, whatever waits on the standard input, and no tally or verdict line.  With a
non-empty clue set the numbered listing of `exibirPistas` is printed with its total and
`verificarSuspeitoFinal` is run once on the clue tree, its lines following the listing; it
returns whenever the lookups of the clues the run was started with do. -/
theorem encerrar_com_ou_sem_pistas (sg : Bool) (salaInicial : Sala) (arvoreInicial : PistaNode)
    (tabela : TabelaHash) (escolhas entrada : List Nat) (r : Exploracao) (escolha : Nat)
    (h : explorarSalas sg salaInicial arvoreInicial tabela escolhas entrada = some r)
    (hsit : r.situacao = .aguardandoEscolha)
    (hc : escolha = 's'.toNat ∨ escolha = 'S'.toNat) :
    (r.arvorePistas = .nulo →
        explorarSalas sg salaInicial arvoreInicial tabela (escolhas ++ [escolha]) entrada =
          some ⟨r.salaAtual, .nulo,
            r.saida ++ [.relatorioFinal, .investigacaoEncerrada, .nenhumaPistaColetada,
              .impossivelAcusar, .obrigadoPorJogar], .encerrada⟩) ∧
      (r.arvorePistas ≠ .nulo →
        explorarSalas sg salaInicial arvoreInicial tabela (escolhas ++ [escolha]) entrada =
          (verificarSuspeitoFinal sg r.arvorePistas tabela entrada).map (fun acusacao =>
            ⟨r.salaAtual, r.arvorePistas,
              r.saida ++ ([.relatorioFinal, .investigacaoEncerrada, .pistasColetadas,
                  .linhaSeparadora] ++
                (exibirPistas r.arvorePistas 0).1.map (fun p => Linha.pistaNumerada p.1 p.2) ++
                [.linhaSeparadora, .totalDePistas (exibirPistas r.arvorePistas 0).2] ++
                acusacao.map Linha.julgamento ++ [.obrigadoPorJogar]), .encerrada⟩)) ∧
      ((∀ c ∈ textos arvoreInicial, ∃ q, encontrarSuspeito sg tabela c = some q) →
        ∃ acusacao, verificarSuspeitoFinal sg r.arvorePistas tabela entrada = some acusacao) ∧
      (arvoreInicial = .nulo →
        (r.arvorePistas = .nulo ↔ pistasDasSalas (salasEntradas salaInicial escolhas) = [])) := by
  have hap := explorarSalas_append escolhas h hsit escolha []
  rw [tratarEscolha_encerra hc] at hap
  simp only at hap
  obtain ⟨-, harv, -⟩ := explorarSalas_estado escolhas h
  refine ⟨?_, ?_, ?_, ?_⟩
  · intro hn
    rw [hap, hn]
    simp [encerrarInvestigacao]
  · intro hn
    rw [hap]
    simp only [encerrarInvestigacao, hn, ne_eq, not_false_eq_true, if_true]
    cases verificarSuspeitoFinal sg r.arvorePistas tabela entrada <;> rfl
  · intro h0
    apply verificarSuspeitoFinal_definida
    intro c hcm
    rw [harv, mem_textos_inserirTodas] at hcm
    rcases hcm with hcm | hcm
    · exact explorarSalas_consultas escolhas h c hcm
    · exact h0 c hcm
  · intro h0
    rw [harv, inserirTodas_eq_nulo]
    simp [h0]

/-- Witness for C15: in a room without a clue the choice `s` ends the session with the
explanatory message and no accusation, whatever waits on the standard input; in a room with
the clue `a` it ends the session with the listing and the lines of `verificarSuspeitoFinal`. -/
theorem encerrar_com_ou_sem_pistas_witness :
    explorarSalas false (criarSala [88] []) .nulo tabelaExemplo ([] ++ ['s'.toNat]) [83, 10] =
        some ⟨criarSala [88] [], .nulo,
          linhasDaSala (criarSala [88] []) none ++
            [.relatorioFinal, .investigacaoEncerrada, .nenhumaPistaColetada, .impossivelAcusar,
              .obrigadoPorJogar], .encerrada⟩ ∧
      ∃ acusacao,
        verificarSuspeitoFinal false (inserirPista .nulo [97]) tabelaExemplo [83, 10] =
          some acusacao :=
  ⟨(encerrar_com_ou_sem_pistas false (criarSala [88] []) .nulo tabelaExemplo [] [83, 10]
      ⟨criarSala [88] [], .nulo, linhasDaSala (criarSala [88] []) none, .aguardandoEscolha⟩
      's'.toNat (by decide) (by decide) (by decide)).1 (by decide),
    (encerrar_com_ou_sem_pistas false (criarSala [88] [97]) .nulo tabelaExemplo [] [83, 10]
      ⟨criarSala [88] [97], inserirPista .nulo [97],
        linhasDaSala (criarSala [88] [97]) (some (some [83])), .aguardandoEscolha⟩
      's'.toNat (by decide) (by decide) (by decide)).2.2.1 (by simp [textos])⟩

theorem mem_salasDaMansao_self {sala : Sala} (hs : sala ≠ .nulo) : sala ∈ salasDaMansao sala := by
  cases sala with
  | nulo => exact absurd rfl hs
  | no n p e d => simp [salasDaMansao]

theorem salasDaMansao_filho {sala x : Sala}
    (hx : x ∈ salasDaMansao sala.esquerda ∨ x ∈ salasDaMansao sala.direita) :
    x ∈ salasDaMansao sala := by
  cases sala with
  | nulo => simp [Sala.esquerda, Sala.direita, salasDaMansao] at hx
  | no n p e d =>
    simp only [Sala.esquerda, Sala.direita] at hx
    simp only [salasDaMansao, List.mem_cons, List.mem_append]
    exact Or.inr hx

theorem salasDaMansao_trans {a b c : Sala} (hab : a ∈ salasDaMansao b)
    (hbc : b ∈ salasDaMansao c) : a ∈ salasDaMansao c := by
  induction c with
  | nulo => simp [salasDaMansao] at hbc
  | no n p e d ihe ihd =>
    simp only [salasDaMansao, List.mem_cons, List.mem_append] at hbc ⊢
    rcases hbc with rfl | hbc | hbc
    · simpa only [salasDaMansao, List.mem_cons, List.mem_append] using hab
    · exact Or.inr (Or.inl (ihe hbc))
    · exact Or.inr (Or.inr (ihd hbc))

/-- The room the choices lead to is a room of the mansion below the start, and is not
`NULL`. -/
theorem salaApos_na_mansao (es : List Nat) :
    ∀ {sala : Sala}, sala ≠ .nulo →
      salaApos sala es ≠ .nulo ∧ salaApos sala es ∈ salasDaMansao sala := by
  induction es with
  | nil => intro sala hs; exact ⟨hs, mem_salasDaMansao_self hs⟩
  | cons c r ih =>
    intro sala hs
    simp only [salaApos]
    cases hc : tratarEscolha sala c with
    | none => exact ⟨hs, mem_salasDaMansao_self hs⟩
    | some y =>
      obtain ⟨px, av⟩ := y
      have hpx := tratarEscolha_ne_nulo hs hc
      obtain ⟨h1, h2⟩ := ih hpx
      refine ⟨h1, ?_⟩
      rcases tratarEscolha_proxima hc with rfl | ⟨-, h3⟩
      · exact h2
      · apply salasDaMansao_trans h2
        apply salasDaMansao_filho
        rcases h3 with h3 | h3
        · exact Or.inl (h3 ▸ mem_salasDaMansao_self hpx)
        · exact Or.inr (h3 ▸ mem_salasDaMansao_self hpx)

theorem entrarNaSala_definida {sg : Bool} {sala : Sala} (a : PistaNode) {t : TabelaHash}
    (h : ∀ c ∈ pistasDasSalas [sala], ∃ q, encontrarSuspeito sg t c = some q) :
    ∃ x, entrarNaSala sg sala a t = some x := by
  simp only [entrarNaSala]
  split_ifs with hp
  · obtain ⟨q, hq⟩ := h sala.pista (by simp [pistasDasSalas, hp])
    exact ⟨_, by rw [hq]⟩
  · exact ⟨_, rfl⟩

/-- A run without `s` and `S` is defined as soon as the lookups of the clues of the rooms it
enters are: it then waits at the prompt. -/
theorem explorarSalas_definida {sg : Bool} {t : TabelaHash} (en : List Nat) (es : List Nat) :
    ∀ {sala : Sala} (a : PistaNode), (∀ c ∈ es, encerra c = false) →
      (∀ c ∈ pistasDasSalas (salasEntradas sala es), ∃ q, encontrarSuspeito sg t c = some q) →
      ∃ r, explorarSalas sg sala a t es en = some r := by
  induction es with
  | nil =>
    intro sala a _ h
    by_cases hs : sala = .nulo
    · subst hs; exact ⟨_, explorarSalas_nulo sg a t [] en⟩
    · rw [salasEntradas_nil hs] at h
      obtain ⟨x, hx⟩ := entrarNaSala_definida a h
      exact ⟨_, by rw [explorarSalas_nil sg hs, hx]; rfl⟩
  | cons c r ih =>
    intro sala a hes h
    by_cases hs : sala = .nulo
    · subst hs; exact ⟨_, explorarSalas_nulo sg a t _ en⟩
    · rw [salasEntradas_cons hs, pistasDasSalas_cons] at h
      obtain ⟨x, hx⟩ := entrarNaSala_definida a
        (fun y hy => h y (List.mem_append.mpr (Or.inl hy)))
      have hc : encerra c = false := hes c (List.mem_cons_self c r)
      cases htr : tratarEscolha sala c with
      | none => rw [(tratarEscolha_none_iff sala c).mp htr] at hc; exact absurd hc (by simp)
      | some y =>
        obtain ⟨px, av⟩ := y
        rw [htr] at h
        simp only at h
        obtain ⟨q, hq⟩ := ih x.1 (fun z hz => hes z (List.mem_cons_of_mem c hz))
          (fun y hy => h y (List.mem_append.mpr (Or.inr hy)))
        exact ⟨_, by rw [explorarSalas_cons sg hs, hx, Option.some_bind, htr]; simp only; rw [hq]; rfl⟩

theorem salaAnunciada_linhasDaSala (sala : Sala) (x : Option (Option CStr)) :
    (linhasDaSala sala x).filterMap salaAnunciada = [sala.nome] := by
  simp only [linhasDaSala]
  rcases x with _ | _ | _ <;> simp only [] <;> split_ifs <;> simp [salaAnunciada]

theorem salaAnunciada_entrarNaSala {sg : Bool} {sala : Sala} {a : PistaNode} {t : TabelaHash}
    {x : PistaNode × List Linha} (h : entrarNaSala sg sala a t = some x) :
    x.2.filterMap salaAnunciada = [sala.nome] := by
  simp only [entrarNaSala] at h
  split_ifs at h
  · split at h
    · exact absurd h (by simp)
    · simp only [Option.some.injEq] at h
      rw [← h]; exact salaAnunciada_linhasDaSala _ _
  · simp only [Option.some.injEq] at h
    rw [← h]; exact salaAnunciada_linhasDaSala sala none

theorem salaAnunciada_encerrarInvestigacao {sg : Bool} {a : PistaNode} {t : TabelaHash}
    {en : List Nat} {rel : List Linha} (h : encerrarInvestigacao sg a t en = some rel) :
    rel.filterMap salaAnunciada = [] := by
  simp only [encerrarInvestigacao] at h
  split_ifs at h
  · split at h
    · exact absurd h (by simp)
    · simp only [Option.some.injEq] at h
      rw [← h]
      simp [List.filterMap_append, List.filterMap_map, salaAnunciada, Function.comp_def]
  · simp only [Option.some.injEq] at h
    rw [← h]; simp [salaAnunciada]

theorem tratarEscolha_aviso {sala proxima : Sala} {c : Nat} {aviso : Linha}
    (h : tratarEscolha sala c = some (proxima, aviso)) : salaAnunciada aviso = none := by
  unfold tratarEscolha at h
  split_ifs at h <;> simp only [Option.some.injEq, Prod.mk.injEq] at h <;>
    rw [← h.2] <;> rfl

/-- The rooms announced by a run (`Voce esta na: ...`) are the rooms of `salasEntradas`, in
order. -/
theorem explorarSalas_salasEntradas {sg : Bool} {t : TabelaHash} {en : List Nat}
    (es : List Nat) :
    ∀ {sala : Sala} {a : PistaNode} {r : Exploracao},
      explorarSalas sg sala a t es en = some r →
      r.saida.filterMap salaAnunciada = (salasEntradas sala es).map Sala.nome := by
  induction es with
  | nil =>
    intro sala a r h
    by_cases hs : sala = .nulo
    · subst hs
      rw [explorarSalas_nulo] at h
      simp only [Option.some.injEq] at h
      subst h
      simp [salasEntradas]
    · rw [explorarSalas_nil sg hs] at h
      cases hx : entrarNaSala sg sala a t with
      | none => rw [hx] at h; exact absurd h (by simp)
      | some x =>
        rw [hx] at h
        simp only [Option.map_some', Option.some.injEq] at h
        subst h
        simp [salasEntradas_nil hs, salaAnunciada_entrarNaSala hx]
  | cons c rest ih =>
    intro sala a r h
    by_cases hs : sala = .nulo
    · subst hs
      rw [explorarSalas_nulo] at h
      simp only [Option.some.injEq] at h
      subst h
      simp [salasEntradas]
    · rw [explorarSalas_cons sg hs] at h
      cases hx : entrarNaSala sg sala a t with
      | none => rw [hx] at h; exact absurd h (by simp)
      | some x =>
        rw [hx] at h
        simp only [Option.some_bind] at h
        have hx2 := salaAnunciada_entrarNaSala hx
        cases hc : tratarEscolha sala c with
        | none =>
          rw [hc] at h
          simp only at h
          cases hq : encerrarInvestigacao sg x.1 t en with
          | none => rw [hq] at h; exact absurd h (by simp)
          | some rel =>
            rw [hq] at h
            simp only [Option.map_some', Option.some.injEq] at h
            subst h
            simp [salasEntradas_cons hs, hc, List.filterMap_append, hx2,
              salaAnunciada_encerrarInvestigacao hq]
        | some y =>
          obtain ⟨px, av⟩ := y
          rw [hc] at h
          simp only at h
          cases hq : explorarSalas sg px x.1 t rest en with
          | none => rw [hq] at h; exact absurd h (by simp)
          | some q =>
            rw [hq] at h
            simp only [Option.map_some', Option.some.injEq] at h
            subst h
            simp [salasEntradas_cons hs, hc, List.filterMap_append, hx2,
              List.filterMap_cons, tratarEscolha_aviso hc, ih hq]

theorem explorarSalas_passo {sg : Bool} {t : TabelaHash} {en es : List Nat} {sala : Sala}
    {a : PistaNode} {r r1 : Exploracao} {c : Nat}
    (h : explorarSalas sg sala a t es en = some r) (hsit : r.situacao = .aguardandoEscolha)
    (h1 : explorarSalas sg sala a t (es ++ [c]) en = some r1) :
    r1.arvorePistas = r.arvorePistas ∨
      (r1.salaAtual.pista.length > 0 ∧
        r1.arvorePistas = inserirPista r.arvorePistas r1.salaAtual.pista) := by
  rw [explorarSalas_append es h hsit c []] at h1
  cases hc : tratarEscolha r.salaAtual c with
  | none =>
    rw [hc] at h1
    simp only at h1
    cases hq : encerrarInvestigacao sg r.arvorePistas t en with
    | none => rw [hq] at h1; exact absurd h1 (by simp)
    | some rel =>
      rw [hq] at h1
      simp only [Option.map_some', Option.some.injEq] at h1
      subst h1
      exact Or.inl rfl
  | some y =>
    obtain ⟨px, av⟩ := y
    rw [hc] at h1
    simp only at h1
    obtain ⟨-, -, hne⟩ := explorarSalas_reentra es h hsit
    have hpx := tratarEscolha_ne_nulo hne hc
    rw [explorarSalas_nil sg hpx] at h1
    cases hx : entrarNaSala sg px r.arvorePistas t with
    | none => rw [hx] at h1; exact absurd h1 (by simp)
    | some x =>
      rw [hx] at h1
      simp only [Option.map_some', Option.some.injEq] at h1
      subst h1
      simp only
      have := entrarNaSala_arvore hx
      by_cases hp : px.pista.length > 0
      · right
        refine ⟨hp, ?_⟩
        rw [this]
        simp [pistasDasSalas, hp, inserirTodas]
      · left
        rw [this]
        simp [pistasDasSalas, hp, inserirTodas]

/-- C18: exploration invariant.  For every mansion, every start room and every list of choices
handled by `explorarSalas` from the empty clue tree, the clue tree is the tree obtained by
inserting the non-empty clue texts of the rooms entered so far (the start room included), so
the enumerated clue set is strictly ascending and is a rearrangement of these texts without
repetition; the rooms entered are the rooms the run announces (`Voce esta na: ...`); handling
one more choice removes no clue, and adds nothing when the room entered has an empty clue
text. -/
theorem pistas_coletadas_invariante (sg : Bool) (salaInicial : Sala) (tabela : TabelaHash)
    (escolhas entrada : List Nat) (r : Exploracao)
    (h : explorarSalas sg salaInicial .nulo tabela escolhas entrada = some r) :
    r.arvorePistas = inserirTodas .nulo (pistasDasSalas (salasEntradas salaInicial escolhas)) ∧
      (enumerar r.arvorePistas).Pairwise (fun a b => strcmp a b < 0) ∧
      (enumerar r.arvorePistas).Perm
        (pistasDasSalas (salasEntradas salaInicial escolhas)).dedup ∧
      r.saida.filterMap salaAnunciada = (salasEntradas salaInicial escolhas).map Sala.nome ∧
      ∀ (escolha : Nat) (r1 : Exploracao), r.situacao = .aguardandoEscolha →
        explorarSalas sg salaInicial .nulo tabela (escolhas ++ [escolha]) entrada = some r1 →
        (∀ x ∈ enumerar r.arvorePistas, x ∈ enumerar r1.arvorePistas) ∧
          (r1.salaAtual.pista = [] → r1.arvorePistas = r.arvorePistas) := by
  obtain ⟨-, harv, -⟩ := explorarSalas_estado escolhas h
  refine ⟨harv, ?_, ?_, explorarSalas_salasEntradas escolhas h, ?_⟩
  · rw [harv]; exact enumerar_inserirTodas_pairwise _
  · rw [harv]
    refine (List.perm_ext_iff_of_nodup
      (pairwise_antes_nodup (enumerar_inserirTodas_pairwise _)) (List.nodup_dedup _)).mpr ?_
    intro x
    rw [mem_enumerar_inserirTodas, List.mem_dedup]
  · intro c r1 hsit h1
    rcases explorarSalas_passo h hsit h1 with h2 | ⟨hp, h2⟩
    · exact ⟨fun x hx => h2 ▸ hx, fun _ => h2⟩
    · constructor
      · intro x hx
        rw [enumerar_eq_textos] at hx ⊢
        rw [h2, mem_textos_inserirPista]
        exact Or.inr hx
      · intro hnil
        rw [hnil] at hp
        exact absurd hp (by simp)

/-- Witness for C18: from a room with the clue `b` and, to its left, a room with the clue `a`,
the choice `e` leads to the left room with the clue tree of `b`, `a`, whose enumeration is
`a`, `b`. -/
theorem pistas_coletadas_invariante_witness :
    explorarSalas false (.no [88] [98] (criarSala [89] [97]) .nulo) .nulo tabelaExemplo
        ['e'.toNat] [] =
      some ⟨criarSala [89] [97], inserirPista (inserirPista .nulo [98]) [97],
        linhasDaSala (.no [88] [98] (criarSala [89] [97]) .nulo) (some (some [84])) ++
          Linha.movendoParaEsquerda :: linhasDaSala (criarSala [89] [97]) (some (some [83])),
        .aguardandoEscolha⟩ ∧
    inserirPista (inserirPista .nulo [98]) [97] =
      inserirTodas .nulo (pistasDasSalas
        (salasEntradas (.no [88] [98] (criarSala [89] [97]) .nulo) ['e'.toNat])) ∧
    enumerar (inserirPista (inserirPista .nulo [98]) [97]) = [[97], [98]] :=
  ⟨by decide,
    (pistas_coletadas_invariante false (.no [88] [98] (criarSala [89] [97]) .nulo)
      tabelaExemplo ['e'.toNat] []
      ⟨criarSala [89] [97], inserirPista (inserirPista .nulo [98]) [97],
        linhasDaSala (.no [88] [98] (criarSala [89] [97]) .nulo) (some (some [84])) ++
          Linha.movendoParaEsquerda :: linhasDaSala (criarSala [89] [97]) (some (some [83])),
        .aguardandoEscolha⟩ (by decide)).1,
    by decide⟩

theorem any_encerra_iff (es : List Nat) :
    es.any encerra = true ↔ ∃ c ∈ es, c = 's'.toNat ∨ c = 'S'.toNat := by
  simp only [List.any_eq_true, encerra, decide_eq_true_eq]

/-- C19: session liveness.  For every mansion, every start room that is not `NULL` and every
list of choices handled by `explorarSalas`, the current room is not `NULL` and is a room of
the mansion below the start room; the session is over if and only if `s` or `S` is among the
choices handled, and otherwise the loop is still waiting at the prompt.  A list of choices
without `s` and `S` is handled, and leaves the loop waiting, whenever the lookups of the clues
of the rooms entered return. -/
theorem sessao_ativa_ate_encerrar (sg : Bool) (salaInicial : Sala) (arvoreInicial : PistaNode)
    (tabela : TabelaHash) (escolhas entrada : List Nat) (hs : salaInicial ≠ .nulo) :
    (∀ r, explorarSalas sg salaInicial arvoreInicial tabela escolhas entrada = some r →
        r.salaAtual ≠ .nulo ∧ r.salaAtual ∈ salasDaMansao salaInicial ∧
        (r.situacao = .encerrada ↔ ∃ c ∈ escolhas, c = 's'.toNat ∨ c = 'S'.toNat) ∧
        (r.situacao = .aguardandoEscolha ↔
          ∀ c ∈ escolhas, ¬ (c = 's'.toNat ∨ c = 'S'.toNat))) ∧
      ((∀ c ∈ escolhas, ¬ (c = 's'.toNat ∨ c = 'S'.toNat)) →
        (∀ c ∈ pistasDasSalas (salasEntradas salaInicial escolhas),
          ∃ q, encontrarSuspeito sg tabela c = some q) →
        ∃ r, explorarSalas sg salaInicial arvoreInicial tabela escolhas entrada = some r ∧
          r.situacao = .aguardandoEscolha ∧ r.salaAtual ≠ .nulo ∧
          r.salaAtual ∈ salasDaMansao salaInicial) := by
  have key : ∀ r, explorarSalas sg salaInicial arvoreInicial tabela escolhas entrada = some r →
      r.salaAtual ≠ .nulo ∧ r.salaAtual ∈ salasDaMansao salaInicial ∧
      (r.situacao = .encerrada ↔ ∃ c ∈ escolhas, c = 's'.toNat ∨ c = 'S'.toNat) ∧
      (r.situacao = .aguardandoEscolha ↔
        ∀ c ∈ escolhas, ¬ (c = 's'.toNat ∨ c = 'S'.toNat)) := by
    intro r h
    obtain ⟨h1, -, h3⟩ := explorarSalas_estado escolhas h
    obtain ⟨h4, h5⟩ := salaApos_na_mansao escolhas hs
    rw [if_neg hs] at h3
    refine ⟨h1 ▸ h4, h1 ▸ h5, ?_, ?_⟩
    · rw [h3, ← any_encerra_iff]
      split_ifs with ha <;> simp [ha]
    · have : (∀ c ∈ escolhas, ¬ (c = 's'.toNat ∨ c = 'S'.toNat)) ↔
          ¬ (∃ c ∈ escolhas, c = 's'.toNat ∨ c = 'S'.toNat) := by
        push_neg; rfl
      rw [h3, this, ← any_encerra_iff]
      split_ifs with ha <;> simp [ha]
  refine ⟨key, ?_⟩
  intro hes hq
  have hes2 : ∀ c ∈ escolhas, encerra c = false := by
    intro c hc
    have := hes c hc
    simp only [encerra, decide_eq_false_iff_not]
    exact this
  obtain ⟨r, hr⟩ := explorarSalas_definida entrada escolhas arvoreInicial hes2 hq
  obtain ⟨k1, k2, -, k4⟩ := key r hr
  exact ⟨r, hr, k4.mpr hes, k1, k2⟩

/-- Witness for C19: from a room with a room to its left, the choices `e`, `x`, `d` leave the
loop waiting in the left room, a room of the mansion. -/
theorem sessao_ativa_ate_encerrar_witness :
    ∃ r, explorarSalas false (.no [88] [98] (criarSala [89] [97]) .nulo) .nulo tabelaExemplo
          ['e'.toNat, 'x'.toNat, 'd'.toNat] [] = some r ∧
      r.situacao = .aguardandoEscolha ∧ r.salaAtual ≠ .nulo ∧
      r.salaAtual ∈ salasDaMansao (.no [88] [98] (criarSala [89] [97]) .nulo) :=
  (sessao_ativa_ate_encerrar false (.no [88] [98] (criarSala [89] [97]) .nulo) .nulo
    tabelaExemplo ['e'.toNat, 'x'.toNat, 'd'.toNat] [] (by decide)).2 (by decide) (by
      intro c hc
      have hl : pistasDasSalas (salasEntradas (.no [88] [98] (criarSala [89] [97]) .nulo)
          ['e'.toNat, 'x'.toNat, 'd'.toNat]) = [[98], [97], [97], [97]] := by decide
      rw [hl] at hc
      simp only [List.mem_cons, List.mem_singleton, List.not_mem_nil, or_false] at hc
      rcases hc with rfl | rfl | rfl | rfl
      · exact ⟨some [84], by decide⟩
      · exact ⟨some [83], by decide⟩
      · exact ⟨some [83], by decide⟩
      · exact ⟨some [83], by decide⟩)

/-- An insertion does not change what a lookup of another key returns. -/
theorem encontrarSuspeito_outra_chave {sg : Bool} {t t1 : TabelaHash} {c c2 s2 : CStr}
    (h : inserirNaHash sg t c2 s2 = some t1) (hc : c ≠ c2) :
    encontrarSuspeito sg t1 c = encontrarSuspeito sg t c := by
  rw [encontrarSuspeito_inserirNaHash h c, if_neg hc]

/-- Two anagrams hash to the same slot and are both found after being inserted. -/
theorem colisao_de_anagramas (sg : Bool) :
    funcaoHash sg [97, 98] = funcaoHash sg [98, 97] ∧
      (inserirVarias sg criarTabelaHash [([97, 98], [83]), ([98, 97], [84])]).bind
          (fun t => encontrarSuspeito sg t [97, 98]) = some (some [83]) ∧
      (inserirVarias sg criarTabelaHash [([97, 98], [83]), ([98, 97], [84])]).bind
          (fun t => encontrarSuspeito sg t [98, 97]) = some (some [84]) := by
  cases sg <;> decide

/-- C17, the failing input: where plain `char` is signed, the lookup of the clue `a` in the
fresh table returns `NULL`, but the insertion of the other clue `ê` addresses slot -7,
outside the bucket array, so that what a lookup of `a` returns after it is not defined. -/
theorem inserirNaHash_outra_chave_fora_do_vetor :
    [97] ≠ [195, 170] ∧ encontrarSuspeito true criarTabelaHash [97] = some none ∧
      (inserirNaHash true criarTabelaHash [195, 170] [83]).bind
          (fun t => encontrarSuspeito true t [97]) = none := by
  decide

/-! ### The numbered listing -/

theorem tamanho_eq_length (t : PistaNode) : tamanho t = (textos t).length := by
  induction t with
  | nulo => rfl
  | no c e d ihe ihd => simp [tamanho, textos, ihe, ihd]; omega

theorem map_range_add (f : Nat → Int) (a b : Nat) :
    (List.range (a + b)).map f =
      (List.range a).map f ++ (List.range b).map (fun i => f (a + i)) := by
  rw [List.range_add, List.map_append, List.map_map]
  rfl

theorem map_range_succ (f : Nat → Int) (b : Nat) :
    (List.range (1 + b)).map f = f 0 :: (List.range b).map (fun i => f (1 + i)) := by
  rw [map_range_add]
  rfl

/-- While the counter stays in the range of `int`, `exibirPistas` numbers the nodes
`contador + 1`, `contador + 2`, ... and returns `contador` plus the number of nodes. -/
theorem exibirPistas_numeracao (t : PistaNode) :
    ∀ k : Int, -2147483648 ≤ k → k + tamanho t ≤ 2147483647 →
      (exibirPistas t k).2 = k + tamanho t ∧
        (exibirPistas t k).1.map Prod.fst =
          (List.range (tamanho t)).map (fun i : Nat => k + 1 + (i : Int)) := by
  induction t with
  | nulo => intro k _ _; simp [exibirPistas, tamanho]
  | no c e d ihe ihd =>
    intro k hlo hhi
    simp only [tamanho, Nat.cast_add, Nat.cast_one] at hhi
    obtain ⟨he2, he1⟩ := ihe k hlo (by omega)
    have hk1 : int32 ((exibirPistas e k).2 + 1) = k + tamanho e + 1 := by
      rw [he2, int32_eq_self (by omega) (by omega)]
    obtain ⟨hd2, hd1⟩ := ihd (k + tamanho e + 1) (by omega) (by omega)
    simp only [exibirPistas, hk1, hd2, List.map_append, List.map_cons, he1, hd1, tamanho]
    constructor
    · push_cast; ring
    · rw [show tamanho e + 1 + tamanho d = tamanho e + (1 + tamanho d) by ring,
        map_range_add, map_range_succ]
      congr 1
      congr 1
      · push_cast; ring
      · apply List.map_congr_left
        intro i _
        push_cast; ring

/-- C20, counterexample: started at the largest `int` on a tree of one node, the counter of
`exibirPistas` wraps: the index printed is -2147483648 and not 2147483647 + 1, and the counter
is not left at 2147483647 plus the number of nodes. -/
theorem exibirPistas_contador_transborda :
    exibirPistas (criarPistaNode [97]) 2147483647 = ([(-2147483648, [97])], -2147483648) ∧
      (exibirPistas (criarPistaNode [97]) 2147483647).1.map Prod.fst ≠ [2147483647 + 1] ∧
      (exibirPistas (criarPistaNode [97]) 2147483647).2 ≠
        2147483647 + (tamanho (criarPistaNode [97]) : Int) := by
  decide

/-- C20 (amended): for every clue tree `t` and initial counter `k` in the range of `int` with
`k` plus the number of nodes of `t` at most 2147483647, `exibirPistas` emits the texts of `t`
in in-order, which is strictly ascending when `t` is a search tree, with the consecutive
indices `k + 1`, `k + 2`, ..., and leaves the counter at `k` plus the number of nodes.  Called
with 0 on a tree built by `inserirPista` that has at most 2147483647 nodes, the indices are
1, 2, ... and the final counter, the total reported, is the number of distinct clues
inserted. -/
theorem exibirPistas_numera (t : PistaNode) (k : Int) (hlo : -2147483648 ≤ k)
    (hhi : k + tamanho t ≤ 2147483647) :
    (exibirPistas t k).1.map Prod.snd = textos t ∧
      (ordenada t → ((exibirPistas t k).1.map Prod.snd).Pairwise (fun a b => strcmp a b < 0)) ∧
      (exibirPistas t k).1.map Prod.fst =
        (List.range (tamanho t)).map (fun i : Nat => k + 1 + (i : Int)) ∧
      (exibirPistas t k).2 = k + tamanho t ∧
      ∀ pistas : List CStr, (tamanho (inserirTodas .nulo pistas) : Int) ≤ 2147483647 →
        (exibirPistas (inserirTodas .nulo pistas) 0).1.map Prod.fst =
            (List.range pistas.dedup.length).map (fun i : Nat => 1 + (i : Int)) ∧
          (exibirPistas (inserirTodas .nulo pistas) 0).2 = (pistas.dedup.length : Int) := by
  obtain ⟨h2, h1⟩ := exibirPistas_numeracao t k hlo hhi
  refine ⟨exibirPistas_textos t k, ?_, h1, h2, ?_⟩
  · intro ho
    rw [exibirPistas_textos]
    exact textos_pairwise t ho
  · intro pistas hp
    obtain ⟨g2, g1⟩ := exibirPistas_numeracao (inserirTodas .nulo pistas) 0 (by omega)
      (by omega)
    have hlen : tamanho (inserirTodas .nulo pistas) = pistas.dedup.length := by
      rw [tamanho_eq_length, ← enumerar_eq_textos]
      refine List.Perm.length_eq ?_
      refine (List.perm_ext_iff_of_nodup
        (pairwise_antes_nodup (enumerar_inserirTodas_pairwise pistas))
        (List.nodup_dedup pistas)).mpr ?_
      intro a
      rw [mem_enumerar_inserirTodas, List.mem_dedup]
    rw [g1, g2, hlen]
    simp

/-- Witness for C20: on the tree built from `b`, `a`, `b`, started at 5, the listing is
`6. a`, `7. b` and the counter is left at 7. -/
theorem exibirPistas_numera_witness :
    (exibirPistas (inserirTodas .nulo [[98], [97], [98]]) 5).1.map Prod.fst =
        (List.range (tamanho (inserirTodas .nulo [[98], [97], [98]]))).map
          (fun i : Nat => 5 + 1 + (i : Int)) ∧
      (exibirPistas (inserirTodas .nulo [[98], [97], [98]]) 5).2 =
        5 + tamanho (inserirTodas .nulo [[98], [97], [98]]) ∧
      exibirPistas (inserirTodas .nulo [[98], [97], [98]]) 5 = ([(6, [97]), (7, [98])], 7) :=
  ⟨(exibirPistas_numera (inserirTodas .nulo [[98], [97], [98]]) 5 (by decide)
      (by decide)).2.2.1,
    (exibirPistas_numera (inserirTodas .nulo [[98], [97], [98]]) 5 (by decide)
      (by decide)).2.2.2.1,
    by decide⟩

/-! ### The built-in data -/

set_option maxRecDepth 100000 in
/-- The clues of the rooms of `main` fit `char conteudo[100]`: the insertions of the
exploration of that mansion are within the bound of `inserirPistaComLimite`. -/
theorem pistas_da_mansao_cabem :
    ∀ sala ∈ salasDaMansao hallEntrada, sala.pista.length ≤ 99 ∧
      ∀ arvore : PistaNode, inserirPistaComLimite arvore sala.pista =
        some (inserirPista arvore sala.pista) := by
  intro sala hsala
  have h : sala.pista.length ≤ 99 := by
    revert sala
    decide
  exact ⟨h, fun arvore => inserirPistaComLimite_eq_some arvore sala.pista (by omega)⟩

theorem inicializarSuspeitos_eq (sg : Bool) (t : TabelaHash) :
    inicializarSuspeitos sg t = inserirVarias sg t associacoes := rfl

set_option maxRecDepth 1000000 in
theorem inicializarSuspeitos_tabela (sg : Bool) :
    inicializarSuspeitos sg criarTabelaHash = some (tabelaSuspeitos sg) := by
  cases sg <;> decide

set_option maxRecDepth 1000000 in
/-- C21: the built-in data are consistent, whether plain `char` is signed or not.
`inicializarSuspeitos` inserts the ten pairs of `associacoes`; their keys are pairwise
distinct; every key, the one with the bytes of `ê` included, has its `funcaoHash` in 0..19;
on a fresh table `inicializarSuspeitos` succeeds; the rooms of `main` are the eleven rooms
below `hallEntrada`; and for every one of them with a non-empty clue the clue is a key of
`associacoes` and `encontrarSuspeito` returns a suspect, the one of every pair with that
key. -/
theorem dados_embutidos_consistentes (sg : Bool) :
    (∀ t, inicializarSuspeitos sg t = inserirVarias sg t associacoes) ∧
    associacoes.length = 10 ∧
    (associacoes.map Prod.fst).Nodup ∧
    (∀ p ∈ associacoes, 0 ≤ funcaoHash sg p.1 ∧ funcaoHash sg p.1 ≤ 19) ∧
    funcaoHash sg (ascii "Frasco vazio de ars" ++ [195, 170] ++ ascii "nico") =
      (if sg then 0 else 12) ∧
    inicializarSuspeitos sg criarTabelaHash = some (tabelaSuspeitos sg) ∧
    salasDaMansao hallEntrada =
      [hallEntrada, biblioteca, escritorio, cofre, salaMusica, piano, salaEstar, cozinha,
        despensa, jardim, greenhouse] ∧
    (∀ sala ∈ salasDaMansao hallEntrada, sala.pista ≠ [] →
      sala.pista ∈ associacoes.map Prod.fst ∧
      ∀ p ∈ associacoes, p.1 = sala.pista →
        encontrarSuspeito sg (tabelaSuspeitos sg) sala.pista = some (some p.2)) := by
  refine ⟨fun _ => rfl, by decide, by decide, ?_, ?_, ?_, by decide, ?_⟩ <;>
    cases sg <;> decide

theorem descidas_nil_mem {sala : Sala} (hs : sala ≠ .nulo) : [] ∈ descidas sala := by
  cases sala with
  | nulo => exact absurd rfl hs
  | no n p e d => simp [descidas]

theorem descidas_filho {sala px : Sala} {c : List Sala} (hs : sala ≠ .nulo)
    (hpx : px = sala.esquerda ∨ px = sala.direita) (hc : c ∈ descidas px) :
    px :: c ∈ descidas sala := by
  cases sala with
  | nulo => exact absurd rfl hs
  | no n p e d =>
    simp only [Sala.esquerda, Sala.direita] at hpx
    simp only [descidas, List.mem_cons, List.mem_append, List.mem_map]
    rcases hpx with h | h
    · subst h; exact Or.inr (Or.inl ⟨c, hc, rfl⟩)
    · subst h; exact Or.inr (Or.inr ⟨c, hc, rfl⟩)

theorem inserirTodas_pistas_de_novo (a : PistaNode) (sala : Sala) :
    inserirTodas (inserirTodas a (pistasDasSalas [sala])) (pistasDasSalas [sala]) =
      inserirTodas a (pistasDasSalas [sala]) := by
  by_cases hp : sala.pista.length > 0
  · simp [pistasDasSalas, List.filter, hp, inserirTodas, inserirPista_idem]
  · simp [pistasDasSalas, List.filter, hp, inserirTodas]

/-- The rooms a run enters lie on one way down from the room it starts in: the run ends in
the last room of that way, has entered exactly its rooms, and has collected exactly their
clues. -/
theorem salasEntradas_descida (es : List Nat) :
    ∀ {sala : Sala}, sala ≠ .nulo →
      ∃ c ∈ descidas sala, fimDoCaminho sala c = salaApos sala es ∧
        (∀ a, inserirTodas a (pistasDasSalas (salasEntradas sala es)) =
          inserirTodas a (pistasDasSalas (sala :: c))) ∧
        (∀ x, x ∈ salasEntradas sala es ↔ x ∈ sala :: c) := by
  induction es with
  | nil =>
    intro sala hs
    refine ⟨[], descidas_nil_mem hs, rfl, ?_, ?_⟩
    · intro a; rw [salasEntradas_nil hs]
    · intro x; rw [salasEntradas_nil hs]
  | cons ch rest ih =>
    intro sala hs
    cases htr : tratarEscolha sala ch with
    | none =>
      refine ⟨[], descidas_nil_mem hs, ?_, ?_, ?_⟩
      · simp [fimDoCaminho, salaApos, htr]
      · intro a; rw [salasEntradas_cons hs, htr]
      · intro x; rw [salasEntradas_cons hs, htr]
    | some y =>
      obtain ⟨px, av⟩ := y
      rcases tratarEscolha_proxima htr with hpx | ⟨hne, hpx⟩
      · subst hpx
        obtain ⟨c, hc, hfim, harv, hmem⟩ := ih hs
        refine ⟨c, hc, ?_, ?_, ?_⟩
        · simp only [salaApos, htr]; exact hfim
        · intro a
          rw [salasEntradas_cons hs, htr]
          simp only
          rw [pistasDasSalas_cons, inserirTodas_append, harv, pistasDasSalas_cons px c,
            inserirTodas_append, inserirTodas_pistas_de_novo, inserirTodas_append]
        · intro x
          rw [salasEntradas_cons hs, htr]
          simp only [List.mem_cons]
          rw [hmem x]
          simp only [List.mem_cons]
          tauto
      · obtain ⟨c, hc, hfim, harv, hmem⟩ := ih hne
        refine ⟨px :: c, descidas_filho hs hpx hc, ?_, ?_, ?_⟩
        · simp only [salaApos, htr, fimDoCaminho]; exact hfim
        · intro a
          rw [salasEntradas_cons hs, htr]
          simp only
          rw [pistasDasSalas_cons, inserirTodas_append, harv, pistasDasSalas_cons sala (px :: c),
            inserirTodas_append]
        · intro x
          rw [salasEntradas_cons hs, htr]
          simp only [List.mem_cons]
          rw [hmem x]
          simp only [List.mem_cons]

theorem linhaDoJulgamento_linhasDaSala (sala : Sala) (x : Option (Option CStr)) :
    (linhasDaSala sala x).filterMap linhaDoJulgamento = [] := by
  simp only [linhasDaSala]
  rcases x with _ | _ | _ <;> simp only [] <;> split_ifs <;> simp [linhaDoJulgamento]

theorem linhaDoJulgamento_entrarNaSala {sg : Bool} {sala : Sala} {a : PistaNode}
    {t : TabelaHash} {x : PistaNode × List Linha} (h : entrarNaSala sg sala a t = some x) :
    x.2.filterMap linhaDoJulgamento = [] := by
  simp only [entrarNaSala] at h
  split_ifs at h
  · split at h
    · exact absurd h (by simp)
    · simp only [Option.some.injEq] at h
      rw [← h]; exact linhaDoJulgamento_linhasDaSala _ _
  · simp only [Option.some.injEq] at h
    rw [← h]; exact linhaDoJulgamento_linhasDaSala sala none

theorem linhaDoJulgamento_aviso {sala proxima : Sala} {c : Nat} {aviso : Linha}
    (h : tratarEscolha sala c = some (proxima, aviso)) : linhaDoJulgamento aviso = none := by
  unfold tratarEscolha at h
  split_ifs at h <;> simp only [Option.some.injEq, Prod.mk.injEq] at h <;>
    rw [← h.2] <;> rfl

theorem linhaDoJulgamento_encerrarInvestigacao {sg : Bool} {a : PistaNode} {t : TabelaHash}
    {en : List Nat} {rel : List Linha} (h : encerrarInvestigacao sg a t en = some rel)
    (ha : a ≠ .nulo) :
    ∃ acusacao, verificarSuspeitoFinal sg a t en = some acusacao ∧
      rel.filterMap linhaDoJulgamento = acusacao := by
  simp only [encerrarInvestigacao] at h
  rw [if_pos ha] at h
  cases hv : verificarSuspeitoFinal sg a t en with
  | none => rw [hv] at h; exact absurd h (by simp)
  | some acusacao =>
    rw [hv] at h
    simp only [Option.some.injEq] at h
    refine ⟨acusacao, rfl, ?_⟩
    rw [← h]
    simp [List.filterMap_append, List.filterMap_map, linhaDoJulgamento, Function.comp_def]

/-- The lines of `verificarSuspeitoFinal` in what a run printed: when the run has ended with
a clue tree that is not `NULL`, they are the lines of the one call of
`verificarSuspeitoFinal`, on the clue tree the run ended with. -/
theorem explorarSalas_julgamento {sg : Bool} {t : TabelaHash} {en : List Nat}
    (es : List Nat) :
    ∀ {sala : Sala} {a : PistaNode} {r : Exploracao},
      explorarSalas sg sala a t es en = some r → r.situacao = .encerrada →
      r.arvorePistas ≠ .nulo →
      ∃ acusacao, verificarSuspeitoFinal sg r.arvorePistas t en = some acusacao ∧
        r.saida.filterMap linhaDoJulgamento = acusacao := by
  induction es with
  | nil =>
    intro sala a r h hsit _
    have := (explorarSalas_estado [] h).2.2
    rw [hsit] at this
    by_cases hs : sala = .nulo
    · simp [hs] at this
    · simp [hs] at this
  | cons c rest ih =>
    intro sala a r h hsit harv
    by_cases hs : sala = .nulo
    · subst hs
      rw [explorarSalas_nulo] at h
      simp only [Option.some.injEq] at h
      subst h
      exact absurd hsit (by simp)
    · rw [explorarSalas_cons sg hs] at h
      cases hx : entrarNaSala sg sala a t with
      | none => rw [hx] at h; exact absurd h (by simp)
      | some x =>
        rw [hx] at h
        simp only [Option.some_bind] at h
        have hx2 := linhaDoJulgamento_entrarNaSala hx
        cases hc : tratarEscolha sala c with
        | none =>
          rw [hc] at h
          simp only at h
          cases hq : encerrarInvestigacao sg x.1 t en with
          | none => rw [hq] at h; exact absurd h (by simp)
          | some rel =>
            rw [hq] at h
            simp only [Option.map_some', Option.some.injEq] at h
            subst h
            obtain ⟨ac, hac, hrel⟩ := linhaDoJulgamento_encerrarInvestigacao hq harv
            exact ⟨ac, hac, by simp [List.filterMap_append, hx2, hrel]⟩
        | some y =>
          obtain ⟨px, av⟩ := y
          rw [hc] at h
          simp only at h
          cases hq : explorarSalas sg px x.1 t rest en with
          | none => rw [hq] at h; exact absurd h (by simp)
          | some q =>
            rw [hq] at h
            simp only [Option.map_some', Option.some.injEq] at h
            subst h
            obtain ⟨ac, hac, hrel⟩ := ih hq hsit harv
            exact ⟨ac, hac, by
              simp [List.filterMap_append, hx2, List.filterMap_cons,
                linhaDoJulgamento_aviso hc, hrel]⟩

/-- A run is defined for every list of choices, ended or not, when the lookups of the clues
of all the rooms below the starting room and of the clues already collected are. -/
theorem explorarSalas_total {sg : Bool} {t : TabelaHash} (en : List Nat) (es : List Nat) :
    ∀ {sala : Sala} (a : PistaNode),
      (∀ x ∈ salasDaMansao sala, ∀ c ∈ pistasDasSalas [x],
        ∃ q, encontrarSuspeito sg t c = some q) →
      (∀ c ∈ textos a, ∃ q, encontrarSuspeito sg t c = some q) →
      ∃ r, explorarSalas sg sala a t es en = some r := by
  induction es with
  | nil =>
    intro sala a h _
    by_cases hs : sala = .nulo
    · subst hs; exact ⟨_, explorarSalas_nulo sg a t [] en⟩
    · obtain ⟨x, hx⟩ := entrarNaSala_definida a (h sala (mem_salasDaMansao_self hs))
      exact ⟨_, by rw [explorarSalas_nil sg hs, hx]; rfl⟩
  | cons c rest ih =>
    intro sala a h ha
    by_cases hs : sala = .nulo
    · subst hs; exact ⟨_, explorarSalas_nulo sg a t _ en⟩
    · obtain ⟨x, hx⟩ := entrarNaSala_definida a (h sala (mem_salasDaMansao_self hs))
      obtain ⟨a1, linhas⟩ := x
      have ha1 : ∀ y ∈ textos a1, ∃ q, encontrarSuspeito sg t y = some q := by
        intro y hy
        rw [entrarNaSala_arvore hx, mem_textos_inserirTodas] at hy
        rcases hy with hy | hy
        · exact h sala (mem_salasDaMansao_self hs) y hy
        · exact ha y hy
      cases htr : tratarEscolha sala c with
      | none =>
        have henc : ∃ rel, encerrarInvestigacao sg a1 t en = some rel := by
          simp only [encerrarInvestigacao]
          split_ifs
          · obtain ⟨ac, hac⟩ := verificarSuspeitoFinal_definida en ha1
            rw [hac]; exact ⟨_, rfl⟩
          · exact ⟨_, rfl⟩
        obtain ⟨rel, hrel⟩ := henc
        exact ⟨_, by rw [explorarSalas_cons sg hs, hx, Option.some_bind, htr]; simp only; rw [hrel]; rfl⟩
      | some y =>
        obtain ⟨px, av⟩ := y
        have hsub : ∀ z ∈ salasDaMansao px, z ∈ salasDaMansao sala := by
          intro z hz
          rcases tratarEscolha_proxima htr with hpx | ⟨_, hpx | hpx⟩
          · rw [← hpx]; exact hz
          · exact salasDaMansao_filho (Or.inl (hpx ▸ hz))
          · exact salasDaMansao_filho (Or.inr (hpx ▸ hz))
        obtain ⟨q, hq⟩ := @ih px a1 (fun z hz => h z (hsub z hz)) ha1
        exact ⟨_, by rw [explorarSalas_cons sg hs, hx, Option.some_bind, htr]; simp only; rw [hq]; rfl⟩

/-- In what `verificarSuspeitoFinal` prints, `PARABENS` stands exactly when the count is at
least 2 and `CASO NAO RESOLVIDO` exactly when it is not. -/
theorem verificarSuspeitoFinal_linhas {sg : Bool} {raiz : PistaNode} {t : TabelaHash}
    {entrada : List Nat} {n : Int} {acusacao : List Saida}
    (h : contarPistasPorSuspeito sg raiz t (lerAcusado entrada) = some n)
    (hv : verificarSuspeitoFinal sg raiz t entrada = some acusacao) :
    (Saida.parabens ∈ acusacao ↔ 2 ≤ n) ∧ (Saida.casoNaoResolvido ∈ acusacao ↔ n < 2) := by
  obtain ⟨pistas, hp⟩ := verificarSuspeitoFinal_eq h
  rw [hp] at hv
  simp only [Option.some.injEq] at hv
  subst hv
  by_cases h2 : 2 ≤ n
  · have h0 : n > 0 := by omega
    have h3 : ¬ n < 2 := by omega
    simp [blocoVeredicto, h2, h0, h3]
  · have h3 : n < 2 := by omega
    by_cases h0 : n > 0 <;> by_cases h1 : n = 1 <;> simp [blocoVeredicto, h2, h0, h1, h3]

set_option maxRecDepth 1000000 in
/-- The lookups of the clues of the rooms of `main`, in the table of `main`, are defined. -/
theorem consultas_da_mansao (sg : Bool) :
    ∀ x ∈ salasDaMansao hallEntrada, ∀ c ∈ pistasDasSalas [x],
      (encontrarSuspeito sg (tabelaSuspeitos sg) c).isSome = true := by
  cases sg <;> decide

set_option maxRecDepth 1000000 in
/-- The counts on the eleven ways down from `hallEntrada`, by evaluation: the lookups of the
clues collected are defined; a suspect two or more of them point to is `Sr. Williams`, or is
`Sra. Johnson` on the way `biblioteca`, `escritorio`, `cofre`; the counts of `Dr. Smith` and
of `Mordomo James` are 0 or 1. -/
theorem contagens_das_descidas (sg : Bool) :
    ∀ c ∈ descidas hallEntrada,
      (consultarTodas sg (tabelaSuspeitos sg)
        (textos (inserirTodas .nulo (pistasDasSalas (hallEntrada :: c))))).isSome = true ∧
      inserirTodas .nulo (pistasDasSalas (hallEntrada :: c)) ≠ .nulo ∧
      (∀ p ∈ (consultarTodas sg (tabelaSuspeitos sg)
          (textos (inserirTodas .nulo (pistasDasSalas (hallEntrada :: c))))).getD [],
        2 ≤ (((consultarTodas sg (tabelaSuspeitos sg)
          (textos (inserirTodas .nulo (pistasDasSalas (hallEntrada :: c))))).getD []).filter
            (fun q => decide (q.2 = p.2))).length →
        p.2 = some (ascii "Sr. Williams") ∨
          (p.2 = some (ascii "Sra. Johnson") ∧ c = [biblioteca, escritorio, cofre])) ∧
      contarPistasPorSuspeito sg (inserirTodas .nulo (pistasDasSalas (hallEntrada :: c)))
        (tabelaSuspeitos sg) (ascii "Dr. Smith") ∈ [some 0, some 1] ∧
      contarPistasPorSuspeito sg (inserirTodas .nulo (pistasDasSalas (hallEntrada :: c)))
        (tabelaSuspeitos sg) (ascii "Mordomo James") ∈ [some 0, some 1] := by
  cases sg <;> decide

theorem mem_julgamento (x : Saida) (l : List Linha) :
    Linha.julgamento x ∈ l ↔ x ∈ l.filterMap linhaDoJulgamento := by
  rw [List.mem_filterMap]
  constructor
  · intro h; exact ⟨_, h, rfl⟩
  · rintro ⟨a, ha, hx⟩
    cases a <;> simp only [linhaDoJulgamento, Option.some.injEq] at hx <;>
      first | exact absurd hx (by simp) | (subst hx; exact ha)

/-- What `main` reaches for a list of choices with `s` or `S` in it: the run is defined and
has ended, on a way down from `hallEntrada`, and has printed the lines of one call of
`verificarSuspeitoFinal` on the clue tree of that way. -/
theorem main_encerrada (sg : Bool) (es en : List Nat) (hfim : es.any encerra = true) :
    ∃ r c acusacao, main sg es en = some r ∧ r.situacao = .encerrada ∧
      c ∈ descidas hallEntrada ∧ r.salaAtual = fimDoCaminho hallEntrada c ∧
      r.arvorePistas = inserirTodas .nulo (pistasDasSalas (hallEntrada :: c)) ∧
      (∀ x, x ∈ salasEntradas hallEntrada es ↔ x ∈ hallEntrada :: c) ∧
      verificarSuspeitoFinal sg r.arvorePistas (tabelaSuspeitos sg) en = some acusacao ∧
      ∀ x, Linha.julgamento x ∈ r.saida ↔ x ∈ acusacao := by
  have hhall : hallEntrada ≠ .nulo := by decide
  obtain ⟨q, hq⟩ := explorarSalas_total en es (.nulo : PistaNode)
    (fun x hx c hc => Option.isSome_iff_exists.mp (consultas_da_mansao sg x hx c hc))
    (fun c hc => absurd hc (by simp [textos]))
  obtain ⟨hsala, harv, hsit⟩ := explorarSalas_estado es hq
  rw [if_neg hhall, if_pos hfim] at hsit
  obtain ⟨c, hc, hfimc, harvc, hmem⟩ := salasEntradas_descida es hhall
  rw [harvc] at harv
  have hne : q.arvorePistas ≠ .nulo := by
    rw [harv]; exact (contagens_das_descidas sg c hc).2.1
  obtain ⟨ac, hac, hsaida⟩ := explorarSalas_julgamento es hq hsit hne
  refine ⟨⟨q.salaAtual, q.arvorePistas,
    [.bemVindo, .exploreAMansao, .useEDS, .pistasSeraoAssociadas,
      .deveraFazerUmaAcusacao] ++ q.saida, q.situacao⟩, c, ac, ?_, hsit, hc, ?_, harv, hmem,
    hac, ?_⟩
  · unfold main
    rw [inicializarSuspeitos_tabela sg]
    simp only
    rw [hq]
  · rw [hfimc]; exact hsala
  · intro x
    simp [mem_julgamento, List.filterMap_append, linhaDoJulgamento, hsaida]

set_option maxRecDepth 1000000 in
/-- C22: winnability on the mansion of `main`, whether plain `char` is signed or not.  For
every list of choices with `s` or `S` in it and every input left for the accusation, `main`
is defined and has ended; the counts of the clues collected that point to `Dr. Smith` and to
`Mordomo James` are at most 1; accusing either prints `CASO NAO RESOLVIDO` and not
`PARABENS`; and `PARABENS` is printed only when the accused is `Sr. Williams`, or is
`Sra. Johnson` with the run ended in `cofre` after entering exactly `hallEntrada`,
`biblioteca`, `escritorio` and `cofre`.  Both are reached: `d`, `s` with `Sr. Williams`, and
`e`, `e`, `e`, `s` with `Sra. Johnson`, print `PARABENS`. -/
theorem veredicto_na_mansao (sg : Bool) (es en : List Nat) (hfim : es.any encerra = true) :
    (∃ r, main sg es en = some r ∧ r.situacao = .encerrada ∧
      (∃ n, contarPistasPorSuspeito sg r.arvorePistas (tabelaSuspeitos sg)
        (ascii "Dr. Smith") = some n ∧ n ≤ 1) ∧
      (∃ n, contarPistasPorSuspeito sg r.arvorePistas (tabelaSuspeitos sg)
        (ascii "Mordomo James") = some n ∧ n ≤ 1) ∧
      ((lerAcusado en = ascii "Dr. Smith" ∨ lerAcusado en = ascii "Mordomo James") →
        Linha.julgamento .casoNaoResolvido ∈ r.saida ∧
          Linha.julgamento .parabens ∉ r.saida) ∧
      (Linha.julgamento .parabens ∈ r.saida →
        lerAcusado en = ascii "Sr. Williams" ∨
          (lerAcusado en = ascii "Sra. Johnson" ∧ r.salaAtual = cofre ∧
            ∀ x, x ∈ salasEntradas hallEntrada es ↔
              x ∈ [hallEntrada, biblioteca, escritorio, cofre]))) ∧
    (main sg ['d'.toNat, 's'.toNat] (ascii "Sr. Williams\n")).map
        (fun r => decide (Linha.julgamento .parabens ∈ r.saida)) = some true ∧
    (main sg ['e'.toNat, 'e'.toNat, 'e'.toNat, 's'.toNat] (ascii "Sra. Johnson\n")).map
        (fun r => (r.salaAtual, decide (Linha.julgamento .parabens ∈ r.saida))) =
      some (cofre, true) := by
  refine ⟨?_, by cases sg <;> decide, by cases sg <;> decide⟩
  obtain ⟨r, c, ac, hmain, hsit, hc, hsala, harv, hmem, hac, hsaida⟩ :=
    main_encerrada sg es en hfim
  obtain ⟨hsome, _, hdois, hsmith, hjames⟩ := contagens_das_descidas sg c hc
  rw [← harv] at hsome hdois hsmith hjames
  obtain ⟨rs, hrs⟩ := Option.isSome_iff_exists.mp hsome
  rw [hrs, Option.getD_some] at hdois
  have hn : contarPistasPorSuspeito sg r.arvorePistas (tabelaSuspeitos sg) (lerAcusado en) =
      some ((rs.filter (fun p => decide (p.2 = some (lerAcusado en)))).length : Int) := by
    rw [contarPistasPorSuspeito_eq_filter, hrs]; rfl
  obtain ⟨hpar, hnao⟩ := verificarSuspeitoFinal_linhas hn hac
  have hs1 : ∃ n, contarPistasPorSuspeito sg r.arvorePistas (tabelaSuspeitos sg)
      (ascii "Dr. Smith") = some n ∧ n ≤ 1 := by
    simp only [List.mem_cons, List.mem_singleton, List.not_mem_nil, or_false] at hsmith
    rcases hsmith with h | h
    · exact ⟨0, h, by omega⟩
    · exact ⟨1, h, by omega⟩
  have hj1 : ∃ n, contarPistasPorSuspeito sg r.arvorePistas (tabelaSuspeitos sg)
      (ascii "Mordomo James") = some n ∧ n ≤ 1 := by
    simp only [List.mem_cons, List.mem_singleton, List.not_mem_nil, or_false] at hjames
    rcases hjames with h | h
    · exact ⟨0, h, by omega⟩
    · exact ⟨1, h, by omega⟩
  refine ⟨r, hmain, hsit, hs1, hj1, ?_, ?_⟩
  · intro hquem
    have hlt : ((rs.filter (fun p => decide (p.2 = some (lerAcusado en)))).length : Int) < 2 := by
      rcases hquem with hq | hq
      · obtain ⟨n, h1, h2⟩ := hs1
        rw [← hq, hn] at h1
        simp only [Option.some.injEq] at h1
        omega
      · obtain ⟨n, h1, h2⟩ := hj1
        rw [← hq, hn] at h1
        simp only [Option.some.injEq] at h1
        omega
    refine ⟨(hsaida _).mpr (hnao.mpr hlt), fun hp => ?_⟩
    have := hpar.mp ((hsaida _).mp hp)
    omega
  · intro hp
    have h2 : 2 ≤ (rs.filter (fun p => decide (p.2 = some (lerAcusado en)))).length := by
      have := hpar.mp ((hsaida _).mp hp)
      omega
    obtain ⟨p, hpmem⟩ := List.exists_mem_of_length_pos (by omega :
      0 < (rs.filter (fun p => decide (p.2 = some (lerAcusado en)))).length)
    rw [List.mem_filter] at hpmem
    obtain ⟨hprs, hp2⟩ := hpmem
    have hp2 : p.2 = some (lerAcusado en) := of_decide_eq_true hp2
    have hd := hdois p hprs (by rw [hp2]; exact h2)
    rw [hp2] at hd
    rcases hd with hw | ⟨hj, hcam⟩
    · exact Or.inl (Option.some.inj hw)
    · refine Or.inr ⟨Option.some.inj hj, ?_, ?_⟩
      · rw [hsala, hcam]; rfl
      · intro x; rw [hmem x, hcam]

/-- Witness for C22: with the choices `e`, `D`, `x`, `s` and `Dr. Smith` accused. -/
theorem veredicto_na_mansao_witness :
    ['e'.toNat, 'D'.toNat, 'x'.toNat, 's'.toNat].any encerra = true ∧
    ∃ r, main true ['e'.toNat, 'D'.toNat, 'x'.toNat, 's'.toNat] (ascii "Dr. Smith\n") = some r ∧
      r.situacao = .encerrada ∧
      Linha.julgamento .casoNaoResolvido ∈ r.saida ∧ Linha.julgamento .parabens ∉ r.saida :=
  ⟨by decide,
    (veredicto_na_mansao true ['e'.toNat, 'D'.toNat, 'x'.toNat, 's'.toNat]
      (ascii "Dr. Smith\n") (by decide)).1.elim
      (fun r h => ⟨r, h.1, h.2.1, h.2.2.2.2.1 (Or.inl (by decide))⟩)⟩

end DetectiveQuest
